import Mathlib

/-!
A shallow embedding, in Lean 4, of the core of the `less-oxide` LESS-to-CSS
compiler (its evaluator, color model, serializer, import handling and the
import-statement part of its parser), together with theorems settling a list
of claims about that code.

Modelling conventions:
* Rust `f64` values are modelled as exact rationals (`ℚ`); the IEEE-754
  rounding of individual operations is not modelled.  All concrete inputs
  used in theorems keep every intermediate value far from any rounding or
  tie boundary, so the modelled results match the `f64` results.
* Rust `String`/`&str` values are modelled as Lean `String` (a list of
  characters); byte indices of the source become character indices.
* Rust `char::is_whitespace` (Unicode) is modelled by `Char.isWhitespace`
  (ASCII whitespace); all whitespace appearing in the claims is ASCII.
* `Vec<T>` becomes `List T`; `IndexMap<K, V>` becomes an insertion-ordered
  association list (`List (K × V)`) with in-place overwrite on insert.
* Fallible Rust functions returning `LessResult<T>` become
  `Except LessError T`; functions that mutate `&mut self` thread an
  explicit `State` value and return it also on the error path, mirroring
  the fact that the Rust `Evaluator` object survives an `Err` return.
* Recursion of the evaluator through mixin bodies stored in scopes is not
  structurally terminating (the Rust code can in fact recurse unboundedly
  on self-referential mixins), so every evaluator function takes a fuel
  parameter and conservatively returns an error when the fuel runs out.
-/

namespace LessOxide

/-! ## error.rs -/

/-- Model of `LessError` from `error.rs`: a parse error with a byte offset, or an
evaluation error carrying a message. -/
inductive LessError where
  | parseError (message : String) (position : Nat)
  | evalError (message : String)
deriving DecidableEq

/-- Model of `LessError::eval` constructor helper. -/
def LessError.eval (message : String) : LessError := .evalError message

/-- Model of `LessError::parse` constructor helper. -/
def LessError.parse (message : String) (position : Nat) : LessError :=
  .parseError message position

/-- Boolean success test on `Except` (Rust `Result::is_ok`). -/
def exceptIsOk {ε α : Type} : Except ε α → Bool
  | .ok _ => true
  | .error _ => false

/-! ## String helpers (models of Rust `str` methods) -/

/-- Drop whitespace from both ends of a character list (Rust `str::trim`). -/
def listTrim (cs : List Char) : List Char :=
  ((cs.dropWhile Char.isWhitespace).reverse.dropWhile Char.isWhitespace).reverse

/-- Rust `str::trim`. -/
def strTrim (s : String) : String := ⟨listTrim s.data⟩

/-- Rust `str::trim_start`. -/
def strTrimStart (s : String) : String := ⟨s.data.dropWhile Char.isWhitespace⟩

/-- Rust `str::trim_end`. -/
def strTrimEnd (s : String) : String :=
  ⟨(s.data.reverse.dropWhile Char.isWhitespace).reverse⟩

/-- Does `pat` occur as a contiguous sublist? -/
def listContainsSub (pat : List Char) : List Char → Bool
  | [] => pat.isEmpty
  | c :: rest => pat.isPrefixOf (c :: rest) || listContainsSub pat rest

/-- Rust `str::contains(pat)` for a string pattern. -/
def containsSub (s pat : String) : Bool := listContainsSub pat.data s.data

/-- Rust `str::starts_with(pat)` for a string pattern. -/
def startsWithStr (s pat : String) : Bool := pat.data.isPrefixOf s.data

/-- Rust `str::ends_with(pat)` for a string pattern. -/
def endsWithStr (s pat : String) : Bool := pat.data.isSuffixOf s.data

/-- Rust `str::to_ascii_lowercase` (the Lean `Char.toLower` lowers exactly
the ASCII uppercase letters). -/
def toAsciiLower (s : String) : String := ⟨s.data.map Char.toLower⟩

/-- Index of the first occurrence of a character (Rust `str::find(char)`),
as a character index. -/
def findChar (cs : List Char) (c : Char) : Option Nat :=
  cs.findIdx? (· = c)

/-- Index of the last occurrence of a character (Rust `str::rfind(char)`). -/
def rfindChar (cs : List Char) (c : Char) : Option Nat :=
  match (cs.reverse).findIdx? (· = c) with
  | some j => some (cs.length - 1 - j)
  | none => none

/-! ## Numeric helpers (models of `f64` parsing, rounding and formatting) -/

/-- Model of `f64::EPSILON` as an exact rational (2⁻⁵² = 1/4503599627370496). -/
def f64Epsilon : ℚ := 1 / 4503599627370496

/-- Floor of a rational, via floor division of the reduced numerator by the
denominator. -/
def ratFloor (q : ℚ) : ℤ := q.num.fdiv (q.den : ℤ)

/-- Rust `f64::round`: round to the nearest integer, ties away from zero. -/
def rustRound (q : ℚ) : ℤ :=
  if q < 0 then -(ratFloor (-q + 1 / 2)) else ratFloor (q + 1 / 2)

/-- Rust `f64::abs`. -/
def ratAbs (q : ℚ) : ℚ := if q < 0 then -q else q

/-- The larger of two rationals (Rust `f64::max`). -/
def maxQ (a b : ℚ) : ℚ := if a ≤ b then b else a

/-- The smaller of two rationals (Rust `f64::min`). -/
def minQ (a b : ℚ) : ℚ := if b ≤ a then b else a

/-- Rust `f64::clamp(lo, hi)`. -/
def clampQ (x lo hi : ℚ) : ℚ := if x < lo then lo else if x > hi then hi else x

/-- Numeric value of a list of decimal digits. -/
def digitsVal (cs : List Char) : ℚ :=
  cs.foldl (fun acc c => acc * 10 + ((c.toNat - 48 : Nat) : ℚ)) 0

/-- Model of Rust `str::parse::<f64>()` on the plain decimal literals this
program feeds it: an optional sign, then digits with an optional fractional
part (at least one digit overall).  Exponent, `inf` and `nan` forms are not
modelled; no input exercised by the claims uses them. -/
def parseF64 (cs : List Char) : Option ℚ :=
  let signRest : ℚ × List Char :=
    match cs with
    | '-' :: r => (-1, r)
    | '+' :: r => (1, r)
    | r => (1, r)
  let sign := signRest.1
  let rest := signRest.2
  let ds := rest.takeWhile Char.isDigit
  match rest.drop ds.length with
  | [] => if ds.isEmpty then none else some (sign * digitsVal ds)
  | '.' :: fs =>
      let fd := fs.takeWhile Char.isDigit
      if !(fs.drop fd.length).isEmpty then none
      else if ds.isEmpty && fd.isEmpty then none
      else some (sign * (digitsVal ds + digitsVal fd / 10 ^ fd.length))
  | _ => none

/-- Lowercase hexadecimal digit for `n < 16`. -/
def natHexDigit (n : Nat) : Char :=
  if n < 10 then Char.ofNat (48 + n) else Char.ofNat (87 + n)

/-- Two-digit lowercase hex rendering of a byte (Rust `{:02x}`). -/
def hex2 (n : Nat) : String := ⟨[natHexDigit (n / 16 % 16), natHexDigit (n % 16)]⟩

/-- Decimal rendering of a natural number. -/
def natDec (n : Nat) : String := ⟨Nat.toDigits 10 n⟩

/-- Value of one hexadecimal digit. -/
def hexDigitVal (c : Char) : Option Nat :=
  if '0' ≤ c ∧ c ≤ '9' then some (c.toNat - 48)
  else if 'a' ≤ c ∧ c ≤ 'f' then some (c.toNat - 87)
  else if 'A' ≤ c ∧ c ≤ 'F' then some (c.toNat - 55)
  else none

/-- Model of `u8::from_str_radix(s, 16)` (used by `hex_value` in `color.rs`):
an optional `+` sign, then at least one hex digit, failing on overflow. -/
def hexValue (cs : List Char) : Option Nat :=
  let rest := match cs with | '+' :: r => r | r => r
  if rest.isEmpty then none
  else
    let step : Option Nat → Char → Option Nat := fun acc c =>
      match acc, hexDigitVal c with
      | some v, some d => some (v * 16 + d)
      | _, _ => none
    match rest.foldl step (some 0) with
    | some v => if v ≤ 255 then some v else none
    | none => none

/-- Model of `str::parse::<u8>()` (used by `parse_u8` in `color.rs`):
an optional `+` sign, then at least one decimal digit, failing on overflow. -/
def parseU8 (cs : List Char) : Option Nat :=
  let rest := match cs with | '+' :: r => r | r => r
  if rest.isEmpty ∨ !rest.all Char.isDigit then none
  else
    let v := rest.foldl (fun acc c => acc * 10 + (c.toNat - 48)) 0
    if v ≤ 255 then some v else none

/-! ## color.rs -/

/-- Model of `Rgba` from `color.rs`; channels and alpha are `f64`, modelled as `ℚ`. -/
structure Rgba where
  r : ℚ
  g : ℚ
  b : ℚ
  a : ℚ
deriving DecidableEq

/-- Model of `Rgba::clamp`. -/
def Rgba.clampAll (c : Rgba) : Rgba :=
  ⟨clampQ c.r 0 1, clampQ c.g 0 1, clampQ c.b 0 1, clampQ c.a 0 1⟩

/-- Model of `parse_hex` from `color.rs`. -/
def parseHex (hex : List Char) : Option Rgba :=
  match hex.length with
  | 3 =>
    match hexValue (hex.take 1), hexValue ((hex.drop 1).take 1),
        hexValue ((hex.drop 2).take 1) with
    | some r, some g, some b =>
        some ⟨(r * 17 : ℚ) / 255, (g * 17 : ℚ) / 255, (b * 17 : ℚ) / 255, 1⟩
    | _, _, _ => none
  | 6 =>
    match hexValue (hex.take 2), hexValue ((hex.drop 2).take 2),
        hexValue ((hex.drop 4).take 2) with
    | some r, some g, some b => some ⟨(r : ℚ) / 255, (g : ℚ) / 255, (b : ℚ) / 255, 1⟩
    | _, _, _ => none
  | 8 =>
    match hexValue (hex.take 2), hexValue ((hex.drop 2).take 2),
        hexValue ((hex.drop 4).take 2), hexValue ((hex.drop 6).take 2) with
    | some r, some g, some b, some a =>
        some ⟨(r : ℚ) / 255, (g : ℚ) / 255, (b : ℚ) / 255, (a : ℚ) / 255⟩
    | _, _, _, _ => none
  | _ => none

/-- Model of `parse_alpha` from `color.rs`. -/
def parseAlpha (cs : List Char) : Option ℚ :=
  match cs.reverse with
  | '%' :: rest =>
      match parseF64 rest.reverse with
      | some num => some (clampQ (num / 100) 0 1)
      | none => none
  | _ =>
      match parseF64 cs with
      | some v => some (clampQ v 0 1)
      | none => none

/-- Model of `parse_rgb_function` from `color.rs` (input already lowercased). -/
def parseRgbFunction (input : String) (hasAlpha : Bool) : Option Rgba :=
  let cs := input.data
  match findChar cs '(', rfindChar cs ')' with
  | some op, some cl =>
      let start := op + 1
      let body := (cs.drop start).take (cl - start)
      let parts := (body.splitOn ',').map listTrim
      if (hasAlpha ∧ parts.length ≠ 4) ∨ (!hasAlpha ∧ parts.length ≠ 3) then none
      else
        match parseU8 parts[0]!, parseU8 parts[1]!, parseU8 parts[2]! with
        | some r, some g, some b =>
            let alpha := if hasAlpha then parseAlpha parts[3]! else some 1
            match alpha with
            | some a => some ⟨(r : ℚ) / 255, (g : ℚ) / 255, (b : ℚ) / 255, a⟩
            | none => none
        | _, _, _ => none
  | _, _ => none

/-- Model of `parse_color` from `color.rs`. -/
def parseColor (input : String) : Option Rgba :=
  let trimmed := strTrim input
  match trimmed.data with
  | '#' :: rest => parseHex rest
  | _ =>
    let lowered := toAsciiLower trimmed
    if startsWithStr lowered "rgba" then parseRgbFunction lowered true
    else if startsWithStr lowered "rgb" then parseRgbFunction lowered false
    else none

/-- Model of `rgb_to_hsl` from `color.rs`. -/
def rgbToHsl (color : Rgba) : ℚ × ℚ × ℚ :=
  let r := color.r
  let g := color.g
  let b := color.b
  let mx := maxQ r (maxQ g b)
  let mn := minQ r (minQ g b)
  let l := (mx + mn) / 2
  if ratAbs (mx - mn) < f64Epsilon then (0, 0, l)
  else
    let d := mx - mn
    let s := if l > 1 / 2 then d / (2 - mx - mn) else d / (mx + mn)
    let h :=
      (if ratAbs (mx - r) < f64Epsilon then (g - b) / d + (if g < b then 6 else 0)
       else if ratAbs (mx - g) < f64Epsilon then (b - r) / d + 2
       else (r - g) / d + 4) / 6
    (h, s, l)

/-- Model of `hue_to_rgb` from `color.rs`. -/
def hueToRgb (p q t0 : ℚ) : ℚ :=
  let t1 := if t0 < 0 then t0 + 1 else t0
  let t := if t1 > 1 then t1 - 1 else t1
  if t < 1 / 6 then p + (q - p) * 6 * t
  else if t < 1 / 2 then q
  else if t < 2 / 3 then p + (q - p) * (2 / 3 - t) * 6
  else p

/-- Model of `hsl_to_rgb` from `color.rs`. -/
def hslToRgb (h s l alpha : ℚ) : Rgba :=
  if s ≤ 0 then ⟨l, l, l, alpha⟩
  else
    let q := if l < 1 / 2 then l * (1 + s) else l + s - l * s
    let p := 2 * l - q
    (Rgba.mk (hueToRgb p q (h + 1 / 3)) (hueToRgb p q h)
      (hueToRgb p q (h - 1 / 3)) alpha).clampAll

/-- Model of `lighten` from `color.rs`. -/
def lighten (color : Rgba) (amount : ℚ) : Rgba :=
  let hsl := rgbToHsl color
  hslToRgb hsl.1 hsl.2.1 (clampQ (hsl.2.2 + amount) 0 1) color.a

/-- Model of `darken` from `color.rs`. -/
def darken (color : Rgba) (amount : ℚ) : Rgba :=
  let hsl := rgbToHsl color
  hslToRgb hsl.1 hsl.2.1 (clampQ (hsl.2.2 - amount) 0 1) color.a

/-- Model of `fade` from `color.rs`. -/
def fade (color : Rgba) (amount : ℚ) : Rgba :=
  (Rgba.mk color.r color.g color.b (clampQ amount 0 1)).clampAll

/-- Model of `blend_multiply` from `color.rs`. -/
def blendMultiply (a b : ℚ) : ℚ := a * b

/-- Model of `blend_screen` from `color.rs`. -/
def blendScreen (a b : ℚ) : ℚ := a + b - a * b

/-- Model of `blend_overlay` from `color.rs`. -/
def blendOverlay (base overlayC : ℚ) : ℚ :=
  if base ≤ 1 / 2 then blendMultiply (base * 2) overlayC
  else blendScreen (base * 2 - 1) overlayC

/-- One channel of `color_blend` from `color.rs`: apply the mode and then,
when the resulting alpha is positive, the Porter-Duff composite. -/
def colorBlendChannel (mode : ℚ → ℚ → ℚ) (ab at_ ar cb cs : ℚ) : ℚ :=
  let cr := mode cb cs
  if ar > 0 then (at_ * cs + ab * (cb - at_ * (cb + cs - cr))) / ar else cr

/-- Model of `color_blend` from `color.rs`.  Note the parameter names: the FIRST color
parameter is called `bottom` and the SECOND `top`. -/
def colorBlend (mode : ℚ → ℚ → ℚ) (bottom top : Rgba) : Rgba :=
  let ab := bottom.a
  let at_ := top.a
  let ar := at_ + ab * (1 - at_)
  (Rgba.mk (colorBlendChannel mode ab at_ ar bottom.r top.r)
    (colorBlendChannel mode ab at_ ar bottom.g top.g)
    (colorBlendChannel mode ab at_ ar bottom.b top.b) ar).clampAll

/-- Model of `overlay` from `color.rs`: `color_blend(blend_overlay, top, bottom)` —
the argument called `top` is passed to the `bottom` parameter of
`color_blend` and vice versa. -/
def overlay (top bottom : Rgba) : Rgba :=
  colorBlend blendOverlay top bottom

/-- Model of `to_channel` from `color.rs`: `(value * 255).round().clamp(0, 255) as u8`. -/
def toChannel (value : ℚ) : Nat :=
  let r := rustRound (value * 255)
  let r2 := if r < 0 then 0 else r
  (if r2 > 255 then 255 else r2).toNat

/-- Model of `format_hex` from `color.rs`. -/
def formatHex (color : Rgba) : String :=
  let c := color.clampAll
  "#" ++ hex2 (toChannel c.r) ++ hex2 (toChannel c.g) ++ hex2 (toChannel c.b)

/-- Strip trailing zeros after a decimal point, then a trailing point
(the two `while`/`if` loops shared by `format_float` and
`Evaluator::format_quantity`). -/
def stripDotZeros (s : String) : String :=
  if s.data.contains '.' then
    let r := s.data.reverse.dropWhile (· = '0')
    match r with
    | '.' :: rest => ⟨rest.reverse⟩
    | _ => ⟨r.reverse⟩
  else s

/-- Model of `format_float` from `color.rs` (`{:.3}` rendering then zero-stripping);
the `f64` formatting round is modelled as exact rounding of the rational. -/
def formatFloat (value : ℚ) : String :=
  let n := rustRound (value * 1000)
  let sign := if value < 0 then "-" else ""
  let m := n.natAbs
  let formatted := sign ++ natDec (m / 1000) ++ "." ++
    ⟨[natHexDigit (m / 100 % 10), natHexDigit (m / 10 % 10), natHexDigit (m % 10)]⟩
  let stripped := stripDotZeros formatted
  if stripped = "" then "0" else stripped

/-- Model of `format_rgba` from `color.rs`. -/
def formatRgba (color : Rgba) : String :=
  let c := color.clampAll
  "rgba(" ++ natDec (toChannel c.r) ++ ", " ++ natDec (toChannel c.g) ++ ", " ++
    natDec (toChannel c.b) ++ ", " ++ formatFloat c.a ++ ")"

/-! ## evaluator.rs — quantities and arithmetic -/

/-- Model of `Quantity` from `evaluator.rs`: an `f64` value (modelled as `ℚ`) with a
textual unit. -/
structure Quantity where
  value : ℚ
  unit : String
deriving DecidableEq

/-- Model of `Token` from `evaluator.rs`. -/
inductive Token where
  | quantity (q : Quantity)
  | operator (op : Char)
deriving DecidableEq

/-- Model of `Evaluator::is_operator`. -/
def isOperator (ch : Char) : Bool :=
  ch = '+' ∨ ch = '-' ∨ ch = '*' ∨ ch = '/'

/-- Model of `Evaluator::parse_quantity`. -/
def parseQuantity (token : String) : Except LessError Quantity :=
  let trimmed := listTrim token.data
  if trimmed.isEmpty then .error (.eval "缺少数值内容")
  else
    let scan := trimmed.foldl
      (fun acc ch =>
        match acc with
        | .error e => .error e
        | .ok (vp, up) =>
          if ch.isDigit ∨ ch = '.' ∨ ((ch = '-' ∨ ch = '+') ∧ vp.isEmpty) then
            .ok (vp ++ [ch], up)
          else if ch.isAlpha ∨ ch = '%' then .ok (vp, up ++ [ch])
          else if ch.isWhitespace then .ok (vp, up)
          else .error (.eval ("无法解析数值片段: " ++ token)))
      (Except.ok (([] : List Char), ([] : List Char)))
    match scan with
    | .error e => .error e
    | .ok (valuePart, unitPart) =>
      if valuePart.isEmpty then .error (.eval ("缺少数值部分: " ++ token))
      else
        match parseF64 valuePart with
        | none => .error (.eval ("无法解析数值 " ++ ⟨valuePart⟩))
        | some v => .ok ⟨v, ⟨unitPart⟩⟩

/-- Model of `Evaluator::push_token`: flush the pending characters into the token
list (clearing them is implicit: callers continue with an empty buffer). -/
def pushToken (tokens : List Token) (current : List Char) :
    Except LessError (List Token) :=
  let trimmed := listTrim current
  if trimmed.isEmpty then .ok tokens
  else if trimmed = ['-'] ∨ trimmed = ['+'] then
    .error (.eval "算术表达式缺少数值内容")
  else
    match trimmed with
    | [c] =>
      if isOperator c then .ok (tokens ++ [.operator c])
      else
        match parseQuantity ⟨trimmed⟩ with
        | .error e => .error e
        | .ok q => .ok (tokens ++ [.quantity q])
    | _ =>
      match parseQuantity ⟨trimmed⟩ with
      | .error e => .error e
      | .ok q => .ok (tokens ++ [.quantity q])

/-- One character step of `Evaluator::tokenize_expression`; the state is
`(tokens, current, prev_was_operator)`. -/
def tokenizeStep (st : List Token × List Char × Bool) (ch : Char) :
    Except LessError (List Token × List Char × Bool) :=
  let tokens := st.1
  let current := st.2.1
  let prevWasOperator := st.2.2
  if ch.isWhitespace then
    let trimmedCurrent := listTrim current
    if trimmedCurrent = ['-'] ∨ trimmedCurrent = ['+'] then .ok st
    else if !current.isEmpty then
      match pushToken tokens current with
      | .error e => .error e
      | .ok tokens2 => .ok (tokens2, [], prevWasOperator)
    else .ok st
  else if isOperator ch then
    if ch = '-' ∧ prevWasOperator then .ok (tokens, current ++ [ch], prevWasOperator)
    else
      match (if !current.isEmpty then pushToken tokens current else .ok tokens) with
      | .error e => .error e
      | .ok tokens2 => .ok (tokens2 ++ [.operator ch], [], true)
  else .ok (tokens, current ++ [ch], false)

/-- Model of `Evaluator::tokenize_expression`. -/
def tokenizeExpression (input : String) : Except LessError (List Token) :=
  let loop := input.data.foldlM tokenizeStep (([] : List Token), ([] : List Char), true)
  match loop with
  | .error e => .error e
  | .ok (tokens, current, _) =>
    if !current.isEmpty then pushToken tokens current else .ok tokens

/-- Model of `Evaluator::apply_operator`. -/
def applyOperator (lhs : Quantity) (op : Char) (rhs : Quantity) :
    Except LessError Quantity :=
  match op with
  | '+' | '-' =>
    if lhs.unit ≠ rhs.unit then
      .error (.eval ("不同单位无法相加/相减: " ++ toString lhs.value ++ lhs.unit ++
        " 与 " ++ toString rhs.value ++ rhs.unit))
    else
      .ok ⟨if op = '+' then lhs.value + rhs.value else lhs.value - rhs.value, lhs.unit⟩
  | '*' =>
    if !lhs.unit.isEmpty ∧ !rhs.unit.isEmpty then
      .error (.eval "暂不支持两个带单位数值相乘")
    else
      .ok ⟨lhs.value * rhs.value, if lhs.unit.isEmpty then rhs.unit else lhs.unit⟩
  | '/' =>
    if ratAbs rhs.value < f64Epsilon then .error (.eval "除法分母不能为 0")
    else if !rhs.unit.isEmpty then .error (.eval "暂不支持被除数携带单位")
    else .ok ⟨lhs.value / rhs.value, lhs.unit⟩
  | _ => .error (.eval ("未知的运算符 " ++ ⟨[op]⟩))

/-- Model of `Evaluator::format_quantity` (`{:.4}` rendering then zero-stripping,
with magnitudes below `1e-9` coerced to zero); the `f64` formatting round
is modelled as exact rounding of the rational. -/
def formatQuantity (q : Quantity) : String :=
  let v := if ratAbs q.value < 1 / 1000000000 then 0 else q.value
  let n := rustRound (v * 10000)
  let sign := if v < 0 then "-" else ""
  let m := n.natAbs
  let formatted := sign ++ natDec (m / 10000) ++ "." ++
    ⟨[natHexDigit (m / 1000 % 10), natHexDigit (m / 100 % 10),
      natHexDigit (m / 10 % 10), natHexDigit (m % 10)]⟩
  let stripped := stripDotZeros formatted
  if q.unit.isEmpty then stripped else stripped ++ q.unit

/-- The scan inside `Evaluator::strip_outer_parentheses`: walk the
characters tracking paren depth; report `balanced = false` as soon as the
depth returns to zero before the last index.  Returns the `balanced` flag
and the depth at the point the scan stopped. -/
def scanBalanced : List Char → Int → Nat → Nat → Bool × Int
  | [], depth, _, _ => (true, depth)
  | c :: rest, depth, idx, lastIdx =>
    let depth2 := if c = '(' then depth + 1 else if c = ')' then depth - 1 else depth
    if c = ')' ∧ depth2 = 0 ∧ idx ≠ lastIdx then (false, depth2)
    else scanBalanced rest depth2 (idx + 1) lastIdx

/-- The stripping loop of `Evaluator::strip_outer_parentheses`, with fuel
(each iteration removes the outer parentheses, so the initial length
bounds the number of iterations). -/
def stripOuterParensFuel : Nat → List Char → List Char
  | 0, cs => cs
  | n + 1, cs =>
    if cs.head? = some '(' ∧ cs.getLast? = some ')' then
      let sb := scanBalanced cs 0 0 (cs.length - 1)
      if sb.1 ∧ sb.2 = 0 ∧ cs.length > 2 then
        stripOuterParensFuel n (listTrim ((cs.drop 1).dropLast))
      else cs
    else cs

/-- Model of `Evaluator::strip_outer_parentheses`. -/
def stripOuterParentheses (input : List Char) : List Char :=
  let trimmed := listTrim input
  stripOuterParensFuel trimmed.length trimmed

/-- The `prev` neighbour test inside `Evaluator::contains_operator`. -/
def operatorNeighborOkPrev (c : Char) : Bool :=
  c.isWhitespace ∨ c.isDigit ∨ c = '(' ∨ c = ')' ∨ c = '+' ∨ c = '-' ∨
    c = '*' ∨ c = '/'

/-- The `next` neighbour test inside `Evaluator::contains_operator`. -/
def operatorNeighborOkNext (c : Char) : Bool :=
  c.isWhitespace ∨ c.isDigit ∨ c = '@' ∨ c = '(' ∨ c = ')' ∨ c = '+' ∨
    c = '-' ∨ c = '*' ∨ c = '/'

/-- Model of `Evaluator::contains_operator`. -/
def containsOperator (chars : List Char) : Bool :=
  (List.range chars.length).any fun idx =>
    match chars.get? idx with
    | none => false
    | some ch =>
      if !isOperator ch then false
      else if ch = '-' ∧ chars.get? (idx + 1) = some '-' then false
      else
        let prevOk := match (if idx = 0 then none else chars.get? (idx - 1)) with
          | none => true
          | some c => operatorNeighborOkPrev c
        let nextOk := match chars.get? (idx + 1) with
          | none => true
          | some c => operatorNeighborOkNext c
        prevOk && nextOk

/-- The left-to-right reduction loop of `Evaluator::evaluate_arithmetic`:
operators apply immediately; adjacent quantities are collected as separate
result segments. -/
def arithLoop (current : Quantity) (results : List Quantity) :
    List Token → Except LessError (List Quantity)
  | [] => .ok (results ++ [current])
  | .operator op :: rest =>
    match rest with
    | .quantity rhs :: rest2 =>
      match applyOperator current op rhs with
      | .error e => .error e
      | .ok next => arithLoop next results rest2
    | _ => .error (.eval "算术表达式缺少右侧数值")
  | .quantity nextQty :: rest => arithLoop nextQty (results ++ [current]) rest

/-- Model of `Evaluator::evaluate_arithmetic`. -/
def evaluateArithmetic (input : String) : Except LessError (Option String) :=
  let cleaned := input.data.map fun c => if c = '(' ∨ c = ')' then ' ' else c
  let expression := stripOuterParentheses (listTrim cleaned)
  if expression.isEmpty ∨ !containsOperator expression then .ok none
  else
    match tokenizeExpression ⟨expression⟩ with
    | .error e => .error e
    | .ok tokens =>
      if tokens.isEmpty then .ok none
      else
        match tokens with
        | .quantity q :: rest =>
          match arithLoop q [] rest with
          | .error e => .error e
          | .ok results =>
            .ok (some (String.intercalate " " (results.map formatQuantity)))
        | _ => .error (.eval "算术表达式缺少初始数值")

/-! ## evaluator.rs — color-function substitution

`evaluate_color_function` matches its input against the anchored regex
`^(lighten|darken|fade)\s*\(\s*([^,]+)\s*,\s*([^)]+)\)$` (case-insensitive),
and `replace_inline_color_functions` scans for the unanchored pattern
`(lighten|darken|fade)\s*\(\s*((?:[^()]+|\([^()]*\))+?)\s*,\s*([^)]+)\)`.
Both are modelled by hand-rolled matchers implementing the leftmost-first
(backtracking-preference) capture semantics of the `regex` crate. -/

/-- Match the alternation `lighten|darken|fade` case-insensitively at the
head of the input, in pattern order, returning the lowercased name and the
rest. -/
def matchNameCI (cs : List Char) : Option (String × List Char) :=
  if (cs.take 7).map Char.toLower = "lighten".data then some ("lighten", cs.drop 7)
  else if (cs.take 6).map Char.toLower = "darken".data then some ("darken", cs.drop 6)
  else if (cs.take 4).map Char.toLower = "fade".data then some ("fade", cs.drop 4)
  else none

/-- Matcher for the anchored color-function regex; returns the lowercased
name and the two captures, each trimmed (as the caller trims them).
The greedy/backtracking split between `\s*` and the capture groups only
moves surrounding whitespace, which trimming erases, so captures are
computed directly: the first is the text strictly between `(` and the
first `,`, the second the text strictly between that `,` and the final `)`
(which must be the last character, with no other `)` after the comma). -/
def matchColorFnAnchored (input : String) : Option (String × String × String) :=
  match matchNameCI input.data with
  | none => none
  | some (name, r1) =>
    match r1.dropWhile Char.isWhitespace with
    | '(' :: r3 =>
      match findChar r3 ',' with
      | none => none
      | some ci =>
        let pre := r3.take ci
        let rest3 := r3.drop (ci + 1)
        if pre.isEmpty then none
        else
          match rest3.getLast? with
          | some ')' =>
            let amountBody := rest3.dropLast
            if amountBody.isEmpty ∨ amountBody.contains ')' then none
            else some (name, ⟨listTrim pre⟩, ⟨listTrim amountBody⟩)
          | _ => none
    | _ => none

/-- Model of `Evaluator::parse_percentage`. -/
def parsePercentage (raw : String) : Except LessError ℚ :=
  let cleaned := strTrim raw
  if cleaned.data.getLast? = some '%' then
    let number := listTrim cleaned.data.dropLast
    match parseF64 number with
    | none => .error (.eval ("无法解析百分比: " ++ raw))
    | some value => .ok (clampQ (value / 100) 0 1)
  else
    match parseF64 cleaned.data with
    | none => .error (.eval ("无法解析数值: " ++ raw))
    | some value => .ok (clampQ value 0 1)

/-- The depth-counting comma scan of `Evaluator::split_overlay_args`. -/
def splitOverlayIdx : List Char → Int → Nat → Option Nat
  | [], _, _ => none
  | c :: rest, depth, idx =>
    if c = '(' then splitOverlayIdx rest (depth + 1) (idx + 1)
    else if c = ')' then
      splitOverlayIdx rest (if depth > 0 then depth - 1 else depth) (idx + 1)
    else if c = ',' ∧ depth = 0 then some idx
    else splitOverlayIdx rest depth (idx + 1)

/-- Model of `Evaluator::split_overlay_args`. -/
def splitOverlayArgs (input : List Char) : Except LessError (String × String) :=
  match splitOverlayIdx input 0 0 with
  | none => .error (.eval "overlay 函数参数不完整")
  | some idx => .ok (⟨input.take idx⟩, ⟨input.drop (idx + 1)⟩)

/-- Model of `Evaluator::evaluate_overlay_function`. -/
def evaluateOverlayFunction (input : String) : Except LessError (Option String) :=
  let trimmed := strTrim input
  if !startsWithStr (toAsciiLower trimmed) "overlay(" then .ok none
  else
    match findChar trimmed.data '(' with
    | none => .error (.eval "overlay 函数缺少左括号")
    | some op =>
      match rfindChar trimmed.data ')' with
      | none => .error (.eval "overlay 函数缺少右括号")
      | some cl =>
        let start := op + 1
        let body := (trimmed.data.drop start).take (cl - start)
        match splitOverlayArgs body with
        | .error e => .error e
        | .ok (first, second) =>
          match parseColor (strTrim first) with
          | none => .error (.eval ("无法解析颜色参数: " ++ first))
          | some topColor =>
            match parseColor (strTrim second) with
            | none => .error (.eval ("无法解析颜色参数: " ++ second))
            | some bottomColor =>
              .ok (some (formatHex (overlay topColor bottomColor)))

/-- Model of `Evaluator::evaluate_color_function`. -/
def evaluateColorFunction (input : String) : Except LessError (Option String) :=
  match evaluateOverlayFunction input with
  | .error e => .error e
  | .ok (some result) => .ok (some result)
  | .ok none =>
    match matchColorFnAnchored input with
    | none => .ok none
    | some (name, colorArg, amountArg) =>
      match parseColor colorArg with
      | none => .error (.eval ("无法解析颜色参数: " ++ colorArg))
      | some color =>
        match parsePercentage amountArg with
        | .error e => .error e
        | .ok amount =>
          match (if name = "lighten" then some (lighten color amount)
                 else if name = "darken" then some (darken color amount)
                 else if name = "fade" then some (fade color amount)
                 else none) with
          | none => .ok none
          | some result =>
            .ok (some (if name = "fade" then formatRgba result else formatHex result))

/-- Backtracking helper: try `k` on `cs.drop i` for `i = n, n-1, …, 0`
(longest drop first), returning the first success. -/
def tryDrops {α : Type} (cs : List Char) (k : List Char → Option α) :
    Nat → Option α
  | 0 => k cs
  | i + 1 =>
    match k (cs.drop (i + 1)) with
    | some r => some r
    | none => tryDrops cs k i

/-- Backtracking helper: like `tryDrops` but requiring at least one
dropped character (a `+` repetition instead of `*`). -/
def tryDropsPos {α : Type} (cs : List Char) (k : List Char → Option α) :
    Nat → Option α
  | 0 => none
  | i + 1 =>
    match k (cs.drop (i + 1)) with
    | some r => some r
    | none => tryDropsPos cs k i

/-- Greedy `p*` over a character class: consume the longest run of
`p`-characters first, backtracking to shorter runs. -/
def classStarGreedy {α : Type} (p : Char → Bool) (cs : List Char)
    (k : List Char → Option α) : Option α :=
  tryDrops cs k (cs.takeWhile p).length

/-- Greedy `p+` over a character class. -/
def classPlusGreedy {α : Type} (p : Char → Bool) (cs : List Char)
    (k : List Char → Option α) : Option α :=
  tryDropsPos cs k (cs.takeWhile p).length

/-- Character class `[^()]`. -/
def notParen (c : Char) : Bool := c ≠ '(' ∧ c ≠ ')'

/-- The second alternative `\([^()]*\)` of the inline color capture: a
literal paren group (deterministic: the inner `[^()]*` is greedy and `)`
is excluded from it). -/
def parenGroupLit {α : Type} (cs : List Char) (k : List Char → Option α) :
    Option α :=
  match cs with
  | '(' :: rest =>
    let inner := rest.takeWhile notParen
    match rest.drop inner.length with
    | ')' :: r2 => k r2
    | _ => none
  | _ => none

/-- One repetition of the inline capture body `(?:[^()]+|\([^()]*\))`,
with the alternatives tried in pattern order. -/
def rep2 {α : Type} (cs : List Char) (k : List Char → Option α) : Option α :=
  match classPlusGreedy notParen cs k with
  | some r => some r
  | none => parenGroupLit cs k

/-- Lazy `+?` over `rep2`: after each repetition first try the
continuation, then try extending with another repetition.  Every
repetition consumes at least one character, so the input length bounds
the repetition count (the fuel). -/
def group2Lazy {α : Type} : Nat → List Char → (List Char → Option α) → Option α
  | 0, _, _ => none
  | n + 1, cs, k =>
    rep2 cs fun rest =>
      match k rest with
      | some r => some r
      | none => group2Lazy n rest k

/-- The tail `\s*,\s*([^)]+)\)` of the inline pattern; returns the third
capture (untrimmed) and the rest of the input after the match.  The comma
is found deterministically (the preceding `\s*` cannot cross it), and the
capture runs to the first following `)` (excluded from its class). -/
def tailAfterGroup2 (r5 : List Char) : Option (List Char × List Char) :=
  match r5.dropWhile Char.isWhitespace with
  | ',' :: r7 =>
    let pre := r7.takeWhile (· ≠ ')')
    match r7.drop pre.length with
    | ')' :: restAfter => if pre.isEmpty then none else some (pre, restAfter)
    | _ => none
  | _ => none

/-- Try the full inline color-function pattern at the head of `cs`,
returning the lowercased name, the two captures (trimmed, as the caller
trims them) and the rest of the input after the matched text. -/
def matchInlineAt (cs : List Char) :
    Option (String × String × String × List Char) :=
  match matchNameCI cs with
  | none => none
  | some (name, r1) =>
    match r1.dropWhile Char.isWhitespace with
    | '(' :: r3 =>
      classStarGreedy Char.isWhitespace r3 fun r4 =>
        group2Lazy (r4.length + 1) r4 fun r5 =>
          match tailAfterGroup2 r5 with
          | none => none
          | some (amount, restAfter) =>
            let colorCap := r4.take (r4.length - r5.length)
            some (name, ⟨listTrim colorCap⟩, ⟨listTrim amount⟩, restAfter)
    | _ => none

/-- Find the leftmost inline color-function match: the number of characters
before the match, then the data of `matchInlineAt`. -/
def findInlineMatch : List Char → Option (Nat × String × String × String × List Char)
  | [] => none
  | c :: rest =>
    match matchInlineAt (c :: rest) with
    | some (n, col, amt, r) => some (0, n, col, amt, r)
    | none =>
      match findInlineMatch rest with
      | some (i, n, col, amt, r) => some (i + 1, n, col, amt, r)
      | none => none

/-- The `captures_iter` loop of `Evaluator::replace_inline_color_functions`:
successive non-overlapping leftmost matches, each replaced by the computed
color text; color or percentage failures abort with an error.  Returns
`none` when no match was found in `cs`.  Each match consumes characters,
so the input length bounds the match count (the fuel). -/
def replaceInlineLoop : Nat → List Char → Except LessError (Option (List Char))
  | 0, _ => .ok none
  | fuel + 1, cs =>
    match findInlineMatch cs with
    | none => .ok none
    | some (start, name, colorArg, amountArg, restAfter) =>
      match parseColor colorArg with
      | none => .error (.eval ("无法解析颜色参数: " ++ colorArg))
      | some color =>
        match parsePercentage amountArg with
        | .error e => .error e
        | .ok amount =>
          let replacement : String :=
            if name = "lighten" then formatHex (lighten color amount)
            else if name = "darken" then formatHex (darken color amount)
            else formatRgba (fade color amount)
          match replaceInlineLoop fuel restAfter with
          | .error e => .error e
          | .ok none => .ok (some (cs.take start ++ replacement.data ++ restAfter))
          | .ok (some tailOut) => .ok (some (cs.take start ++ replacement.data ++ tailOut))

/-- Model of `Evaluator::replace_inline_color_functions`. -/
def replaceInlineColorFunctions (input : String) :
    Except LessError (Option String) :=
  match replaceInlineLoop (input.data.length + 1) input.data with
  | .error e => .error e
  | .ok none => .ok none
  | .ok (some out) => .ok (some ⟨out⟩)

/-- Model of `Evaluator::compute_value`. -/
def computeValue (input : String) : Except LessError String :=
  if input.isEmpty then .ok ""
  else
    match evaluateColorFunction input with
    | .error e => .error e
    | .ok (some color) => .ok color
    | .ok none =>
      match replaceInlineColorFunctions input with
      | .error e => .error e
      | .ok (some inl) => .ok inl
      | .ok none =>
        if containsSub input "var(" then .ok input
        else if containsSub input "url(" then .ok input
        else if containsSub input "unit(" then .ok input
        else if containsSub input "calc(" then .ok input
        else
          match evaluateArithmetic input with
          | .ok (some value) => .ok value
          | .ok none => .ok input
          | .error _ => .ok input

/-- Model of `Evaluator::strip_important`. -/
def stripImportant (value : String) : Option String :=
  let trimmed := strTrimEnd value
  if endsWithStr trimmed "!important" then
    some (strTrimEnd ⟨trimmed.data.take (trimmed.data.length - "!important".data.length)⟩)
  else none

/-! ## ast.rs -/

/-- Model of `Selector` from `ast.rs`. -/
structure Selector where
  value : String
deriving DecidableEq

/-- Model of `ValuePiece` from `ast.rs`. -/
inductive ValuePiece where
  | literal (text : String)
  | variableRef (name : String)
deriving DecidableEq

/-- Model of `Value` from `ast.rs`. -/
structure Value where
  pieces : List ValuePiece
deriving DecidableEq

/-- Model of `VariableDeclaration` from `ast.rs`. -/
structure VariableDeclaration where
  name : String
  value : Value
deriving DecidableEq

/-- Model of `Declaration` from `ast.rs`. -/
structure Declaration where
  name : String
  value : Value
  important : Bool
deriving DecidableEq

/-- Model of `ImportStatement` from `ast.rs`. -/
structure ImportStatement where
  raw : String
  path : Option String
  isCss : Bool
deriving DecidableEq

/-- Model of `MixinParam` from `ast.rs`. -/
structure MixinParam where
  name : String
  default : Option Value
deriving DecidableEq

/-- Model of `DetachedCall` from `ast.rs`. -/
structure DetachedCall where
  name : String
deriving DecidableEq

mutual

/-- Model of `RuleBody` from `ast.rs`. -/
inductive RuleBody where
  | declaration (decl : Declaration)
  | nestedRule (rule : RuleSet)
  | atRule (rule : AtRuleNode)
  | detachedCall (call : DetachedCall)
  | variableDecl (var : VariableDeclaration)
  | mixinDefinition (def_ : MixinDefinition)
  | mixinCall (call : MixinCall)

/-- Model of `RuleSet` from `ast.rs`. -/
inductive RuleSet where
  | mk (selectors : List Selector) (body : List RuleBody)

/-- Model of `AtRule` from `ast.rs` (named `AtRuleNode` here to leave `atRule` free
for constructor names). -/
inductive AtRuleNode where
  | mk (name : String) (params : String) (body : List RuleBody)

/-- Model of `MixinDefinition` from `ast.rs`. -/
inductive MixinDefinition where
  | mk (name : String) (params : List MixinParam) (body : List RuleBody)

/-- Model of `MixinCall` from `ast.rs`. -/
inductive MixinCall where
  | mk (name : String) (args : List MixinArgument)

/-- Model of `MixinArgument` from `ast.rs`. -/
inductive MixinArgument where
  | value (v : Value)
  | ruleset (body : List RuleBody)

end

def RuleSet.selectors : RuleSet → List Selector
  | .mk s _ => s

def RuleSet.body : RuleSet → List RuleBody
  | .mk _ b => b

def AtRuleNode.name : AtRuleNode → String
  | .mk n _ _ => n

def AtRuleNode.params : AtRuleNode → String
  | .mk _ p _ => p

def AtRuleNode.body : AtRuleNode → List RuleBody
  | .mk _ _ b => b

def MixinDefinition.name : MixinDefinition → String
  | .mk n _ _ => n

def MixinDefinition.params : MixinDefinition → List MixinParam
  | .mk _ p _ => p

def MixinDefinition.body : MixinDefinition → List RuleBody
  | .mk _ _ b => b

def MixinCall.name : MixinCall → String
  | .mk n _ => n

def MixinCall.args : MixinCall → List MixinArgument
  | .mk _ a => a

/-- Model of `Statement` from `ast.rs`. -/
inductive Statement where
  | importStmt (stmt : ImportStatement)
  | atRule (rule : AtRuleNode)
  | ruleSet (rule : RuleSet)
  | variableDecl (var : VariableDeclaration)
  | mixinDefinition (def_ : MixinDefinition)
  | mixinCall (call : MixinCall)

/-- Model of `Stylesheet` from `ast.rs`. -/
structure Stylesheet where
  statements : List Statement

/-- Rust `str::replace(char, &str)`: replace every occurrence. -/
def replaceChar (s : String) (c : Char) (with_ : String) : String :=
  ⟨s.data.foldr (fun ch acc => if ch = c then with_.data ++ acc else ch :: acc) []⟩

/-- Model of `Evaluator::combine_selectors`. -/
def combineSelectors (parents : List String) (current : List Selector) :
    List String :=
  if parents.isEmpty then current.map (·.value)
  else
    parents.foldl
      (fun result parent =>
        result ++ current.map fun child =>
          if child.value.data.contains '&' then
            strTrim (replaceChar child.value '&' parent)
          else strTrim parent ++ " " ++ strTrim child.value)
      []

/-! ## evaluator.rs — evaluated output types -/

/-- Model of `EvaluatedDeclaration` from `evaluator.rs`. -/
structure EvaluatedDeclaration where
  name : String
  value : String
  important : Bool
deriving DecidableEq

/-- Model of `EvaluatedNode` from `evaluator.rs` (the `AtRule` payload fields are
inlined into the constructor). -/
inductive EvaluatedNode where
  | rule (selectors : List String) (declarations : List EvaluatedDeclaration)
  | atRule (name : String) (params : String)
      (declarations : List EvaluatedDeclaration) (children : List EvaluatedNode)

/-- Model of `EvaluatedAtRule` from `evaluator.rs`. -/
structure EvaluatedAtRule where
  name : String
  params : String
  declarations : List EvaluatedDeclaration
  children : List EvaluatedNode

/-- Model of `EvaluatedStylesheet` from `evaluator.rs`. -/
structure EvaluatedStylesheet where
  imports : List String
  nodes : List EvaluatedNode

/-! ## evaluator.rs — scopes -/

/-- Model of `VariableValue` from `evaluator.rs`. -/
inductive VariableValue where
  | text (value : String)
  | detachedRuleset (body : List RuleBody)

/-- An insertion-ordered map (`IndexMap`): insert overwrites an existing
key in place, otherwise appends. -/
def mapInsert {β : Type} (m : List (String × β)) (k : String) (v : β) :
    List (String × β) :=
  if m.any (·.1 = k) then m.map fun p => if p.1 = k then (k, v) else p
  else m ++ [(k, v)]

/-- Lookup in an insertion-ordered map. -/
def mapGet {β : Type} (m : List (String × β)) (k : String) : Option β :=
  (m.find? (·.1 = k)).map (·.2)

/-- The mutable state of `Evaluator`: the variable scope stack and the
mixin scope stack.  The Rust code pushes at the end of a `Vec` and walks
it in reverse; the embedding stores the innermost scope at the head of the
list, so push is cons and lookup walks front to back. -/
structure EvalState where
  scopes : List (List (String × VariableValue))
  mixinScopes : List (List (String × MixinDefinition))

/-- Model of `Evaluator::new`: one empty map on each stack. -/
def initialState : EvalState := ⟨[[]], [[]]⟩

/-- Model of `Evaluator::push_scope`. -/
def pushScope (st : EvalState) : EvalState :=
  { st with scopes := [] :: st.scopes }

/-- Model of `Evaluator::pop_scope` (`Vec::pop` is a no-op on an empty stack). -/
def popScope (st : EvalState) : EvalState :=
  { st with scopes := st.scopes.tail }

/-- Model of `Evaluator::push_mixin_scope`. -/
def pushMixinScope (st : EvalState) : EvalState :=
  { st with mixinScopes := [] :: st.mixinScopes }

/-- Model of `Evaluator::pop_mixin_scope`. -/
def popMixinScope (st : EvalState) : EvalState :=
  { st with mixinScopes := st.mixinScopes.tail }

/-- Model of `Evaluator::lookup_variable`: innermost scope first. -/
def lookupVariable (st : EvalState) (name : String) :
    Except LessError VariableValue :=
  match st.scopes.findSome? (fun scope => mapGet scope name) with
  | some value => .ok value
  | none => .error (.eval ("未定义的变量 @" ++ name))

/-- Model of `Evaluator::resolve_variable_text`. -/
def resolveVariableText (st : EvalState) (name : String) :
    Except LessError String :=
  match lookupVariable st name with
  | .error e => .error e
  | .ok (.text value) => .ok value
  | .ok (.detachedRuleset _) =>
    .error (.eval ("变量 @" ++ name ++ " 不是可作为文本使用的值"))

/-- Model of `Evaluator::resolve_ruleset_variable`. -/
def resolveRulesetVariable (st : EvalState) (name : String) :
    Except LessError (List RuleBody) :=
  match lookupVariable st name with
  | .error e => .error e
  | .ok (.detachedRuleset body) => .ok body
  | .ok (.text _) =>
    .error (.eval ("变量 @" ++ name ++ " 不是可调用的规则集"))

/-- Model of `Evaluator::set_variable_text`: write into the innermost scope. -/
def setVariableText (st : EvalState) (name value : String) : EvalState :=
  match st.scopes with
  | [] => st
  | scope :: rest => { st with scopes := mapInsert scope name (.text value) :: rest }

/-- Model of `Evaluator::set_variable_ruleset`. -/
def setVariableRuleset (st : EvalState) (name : String) (body : List RuleBody) :
    EvalState :=
  match st.scopes with
  | [] => st
  | scope :: rest =>
    { st with scopes := mapInsert scope name (.detachedRuleset body) :: rest }

/-- Model of `Evaluator::set_mixin`. -/
def setMixin (st : EvalState) (definition : MixinDefinition) : EvalState :=
  match st.mixinScopes with
  | [] => st
  | scope :: rest =>
    { st with mixinScopes := mapInsert scope definition.name definition :: rest }

/-- Model of `Evaluator::resolve_mixin`. -/
def resolveMixin (st : EvalState) (name : String) :
    Except LessError MixinDefinition :=
  match st.mixinScopes.findSome? (fun scope => mapGet scope name) with
  | some d => .ok d
  | none => .error (.eval ("未定义的 mixin " ++ name))

/-- The interpolation character pair `@` + an opening brace. -/
def openBrace : Char := Char.ofNat 123

def closeBrace : Char := Char.ofNat 125

/-- The scanning loop of `Evaluator::interpolate_property_name`. -/
def interpolateLoop (st : EvalState) : List Char → Except LessError (List Char)
  | [] => .ok []
  | ch :: rest =>
    if ch = '@' ∧ rest.head? = some openBrace then
      let after := rest.drop 1
      let name := after.takeWhile (· ≠ closeBrace)
      let rest2 := (after.drop name.length).tail
      if name.isEmpty then .error (.eval "属性插值缺少变量名")
      else
        match resolveVariableText st ⟨name⟩ with
        | .error e => .error e
        | .ok value =>
          match interpolateLoop st rest2 with
          | .error e => .error e
          | .ok out => .ok ((strTrim value).data ++ out)
    else
      match interpolateLoop st rest with
      | .error e => .error e
      | .ok out => .ok (ch :: out)
termination_by cs => cs.length
decreasing_by
  · simp
    omega
  · simp

/-- Model of `Evaluator::interpolate_property_name`. -/
def interpolatePropertyName (st : EvalState) (raw : String) :
    Except LessError String :=
  if !containsSub raw "@\x7b" then .ok (strTrim raw)
  else
    match interpolateLoop st raw.data with
    | .error e => .error e
    | .ok out => .ok (strTrim ⟨out⟩)

/-- Model of `Evaluator::eval_value`: concatenate the pieces (variable references by
text lookup) and feed the trimmed result to `compute_value`. -/
def evalValue (st : EvalState) (value : Value) : Except LessError String :=
  let buffer := value.pieces.foldlM
    (fun (acc : List Char) piece =>
      match piece with
      | .literal text => Except.ok (acc ++ text.data)
      | .variableRef name =>
        match resolveVariableText st name with
        | .error e => .error e
        | .ok resolved => .ok (acc ++ resolved.data))
    ([] : List Char)
  match buffer with
  | .error e => .error e
  | .ok cs => computeValue (strTrim ⟨cs⟩)

/-- Model of `Evaluator::eval_declaration`. -/
def evalDeclaration (st : EvalState) (decl : Declaration) :
    Except LessError EvaluatedDeclaration :=
  match interpolatePropertyName st decl.name with
  | .error e => .error e
  | .ok name =>
    match evalValue st decl.value with
    | .error e => .error e
    | .ok value0 =>
      let vi : String × Bool :=
        if !decl.important then
          match stripImportant value0 with
          | some stripped => (stripped, true)
          | none => (value0, decl.important)
        else (value0, decl.important)
      .ok ⟨name, vi.1, vi.2⟩

/-- The binding loop for positional mixin arguments (the first `for` of
`Evaluator::expand_mixin`); an evaluation error aborts without popping the
scopes, as the `?` in the Rust loop does. -/
def bindMixinArgs : EvalState → List (MixinArgument × MixinParam) →
    Except LessError Unit × EvalState
  | st, [] => (.ok (), st)
  | st, (arg, param) :: rest =>
    match arg with
    | .value v =>
      match evalValue st v with
      | .error e => (.error e, st)
      | .ok evaluated => bindMixinArgs (setVariableText st param.name evaluated) rest
    | .ruleset body => bindMixinArgs (setVariableRuleset st param.name body) rest

/-- The default-binding loop of `Evaluator::expand_mixin`: a missing
required parameter pops both scopes before returning the error, while a
failing default evaluation returns without popping. -/
def bindMixinDefaults : EvalState → String → List MixinParam →
    Except LessError Unit × EvalState
  | st, _, [] => (.ok (), st)
  | st, defName, param :: rest =>
    match param.default with
    | some dflt =>
      match evalValue st dflt with
      | .error e => (.error e, st)
      | .ok evaluated =>
        bindMixinDefaults (setVariableText st param.name evaluated) defName rest
    | none =>
      (.error (.eval ("mixin " ++ defName ++ " 缺少必填参数 @" ++ param.name)),
        popScope (popMixinScope st))

/-- The error returned when the fuel of the embedding runs out; the Rust
code has no such guard (it would recurse unboundedly instead). -/
def fuelError : LessError := .evalError "求值递归深度超出模型燃料"

mutual

/-- Model of `Evaluator::handle_rule_body_item`. -/
def handleRuleBodyItem (fuel : Nat) (st : EvalState) (item : RuleBody)
    (selectors : List String) (declarations : List EvaluatedDeclaration)
    (pendingNodes : List EvaluatedNode) :
    Except LessError (List EvaluatedDeclaration × List EvaluatedNode) × EvalState :=
  match fuel with
  | 0 => (.error fuelError, st)
  | n + 1 =>
    match item with
    | .variableDecl var =>
      match evalValue st var.value with
      | .error e => (.error e, st)
      | .ok value => (.ok (declarations, pendingNodes), setVariableText st var.name value)
    | .declaration decl =>
      match evalDeclaration st decl with
      | .error e => (.error e, st)
      | .ok evaluated => (.ok (declarations ++ [evaluated], pendingNodes), st)
    | .nestedRule nested =>
      match evalRuleset n st nested selectors with
      | (.error e, st2) => (.error e, st2)
      | (.ok nestedOutput, st2) => (.ok (declarations, pendingNodes ++ nestedOutput), st2)
    | .mixinDefinition d => (.ok (declarations, pendingNodes), setMixin st d)
    | .mixinCall call => expandMixin n st call selectors declarations pendingNodes
    | .atRule ar =>
      match evalAtRule n st ar selectors with
      | (.error e, st2) => (.error e, st2)
      | (.ok ear, st2) =>
        (.ok (declarations,
          pendingNodes ++ [EvaluatedNode.atRule ear.name ear.params ear.declarations ear.children]), st2)
    | .detachedCall call =>
      invokeDetachedRuleset n st call.name selectors declarations pendingNodes
termination_by fuel

/-- The `for item in rule.body` loop shared by `eval_ruleset`,
`expand_mixin` and `invoke_detached_ruleset`. -/
def evalBodyItems (fuel : Nat) (st : EvalState) (items : List RuleBody)
    (selectors : List String) (declarations : List EvaluatedDeclaration)
    (pendingNodes : List EvaluatedNode) :
    Except LessError (List EvaluatedDeclaration × List EvaluatedNode) × EvalState :=
  match fuel with
  | 0 => (.error fuelError, st)
  | n + 1 =>
    match items with
    | [] => (.ok (declarations, pendingNodes), st)
    | item :: rest =>
      match handleRuleBodyItem n st item selectors declarations pendingNodes with
      | (.error e, st2) => (.error e, st2)
      | (.ok (d2, p2), st2) => evalBodyItems n st2 rest selectors d2 p2
termination_by fuel

/-- Model of `Evaluator::eval_ruleset`.  Note that the scope pops happen only on
the success path: an error from the body loop returns with the scopes
still pushed, exactly as the `?` in the Rust code does. -/
def evalRuleset (fuel : Nat) (st : EvalState) (rule : RuleSet)
    (parentSelectors : List String) :
    Except LessError (List EvaluatedNode) × EvalState :=
  match fuel with
  | 0 => (.error fuelError, st)
  | n + 1 =>
    let st1 := pushMixinScope (pushScope st)
    let selectors := combineSelectors parentSelectors rule.selectors
    match evalBodyItems n st1 rule.body selectors [] [] with
    | (.error e, st2) => (.error e, st2)
    | (.ok (declarations, pendingNodes), st2) =>
      let output :=
        (if declarations.isEmpty then []
         else [EvaluatedNode.rule selectors declarations]) ++ pendingNodes
      (.ok output, popScope (popMixinScope st2))
termination_by fuel

/-- Model of `Evaluator::expand_mixin`. -/
def expandMixin (fuel : Nat) (st : EvalState) (call : MixinCall)
    (selectors : List String) (declarations : List EvaluatedDeclaration)
    (pendingNodes : List EvaluatedNode) :
    Except LessError (List EvaluatedDeclaration × List EvaluatedNode) × EvalState :=
  match fuel with
  | 0 => (.error fuelError, st)
  | n + 1 =>
    match resolveMixin st call.name with
    | .error e => (.error e, st)
    | .ok definition =>
      if call.args.length > definition.params.length then
        (.error (.eval ("mixin " ++ call.name ++ " 参数过多: 期望 " ++
          natDec definition.params.length ++ " 个，实际 " ++
          natDec call.args.length ++ " 个")), st)
      else
        let st1 := pushMixinScope (pushScope st)
        match bindMixinArgs st1 (call.args.zip definition.params) with
        | (.error e, st2) => (.error e, st2)
        | (.ok _, st2) =>
          match (if call.args.length < definition.params.length then
                   bindMixinDefaults st2 definition.name
                     (definition.params.drop call.args.length)
                 else (.ok (), st2)) with
          | (.error e, st3) => (.error e, st3)
          | (.ok _, st3) =>
            match evalBodyItems n st3 definition.body selectors declarations pendingNodes with
            | (.error e, st4) => (.error e, st4)
            | (.ok (d2, p2), st4) => (.ok (d2, p2), popScope (popMixinScope st4))
termination_by fuel

/-- Model of `Evaluator::invoke_detached_ruleset` (no scopes of its own). -/
def invokeDetachedRuleset (fuel : Nat) (st : EvalState) (name : String)
    (selectors : List String) (declarations : List EvaluatedDeclaration)
    (pendingNodes : List EvaluatedNode) :
    Except LessError (List EvaluatedDeclaration × List EvaluatedNode) × EvalState :=
  match fuel with
  | 0 => (.error fuelError, st)
  | n + 1 =>
    match resolveRulesetVariable st name with
    | .error e => (.error e, st)
    | .ok body => evalBodyItems n st body selectors declarations pendingNodes
termination_by fuel

/-- Model of `Evaluator::eval_at_rule`. -/
def evalAtRule (fuel : Nat) (st : EvalState) (atRule : AtRuleNode)
    (selectors : List String) :
    Except LessError EvaluatedAtRule × EvalState :=
  match fuel with
  | 0 => (.error fuelError, st)
  | n + 1 =>
    let st1 := pushMixinScope (pushScope st)
    match evalAtRuleItems n st1 atRule.body selectors [] [] [] with
    | (.error e, st2) => (.error e, st2)
    | (.ok (scopedDecls, atDecls, children), st2) =>
      let scopedNodes :=
        (if !selectors.isEmpty ∧ !scopedDecls.isEmpty then
           [EvaluatedNode.rule selectors scopedDecls]
         else []) ++ children
      (.ok ⟨atRule.name, atRule.params,
        if selectors.isEmpty then atDecls else [], scopedNodes⟩,
        popScope (popMixinScope st2))
termination_by fuel

/-- The `for item in at_rule.body` loop of `Evaluator::eval_at_rule`; the
accumulators are `(scoped_declarations, at_rule_declarations, children)`. -/
def evalAtRuleItems (fuel : Nat) (st : EvalState) (items : List RuleBody)
    (selectors : List String) (scopedDecls atDecls : List EvaluatedDeclaration)
    (children : List EvaluatedNode) :
    Except LessError (List EvaluatedDeclaration × List EvaluatedDeclaration ×
      List EvaluatedNode) × EvalState :=
  match fuel with
  | 0 => (.error fuelError, st)
  | n + 1 =>
    match items with
    | [] => (.ok (scopedDecls, atDecls, children), st)
    | item :: rest =>
      match item with
      | .variableDecl var =>
        match evalValue st var.value with
        | .error e => (.error e, st)
        | .ok value =>
          evalAtRuleItems n (setVariableText st var.name value) rest selectors
            scopedDecls atDecls children
      | .declaration decl =>
        match evalDeclaration st decl with
        | .error e => (.error e, st)
        | .ok evaluated =>
          if selectors.isEmpty then
            evalAtRuleItems n st rest selectors scopedDecls (atDecls ++ [evaluated]) children
          else
            evalAtRuleItems n st rest selectors (scopedDecls ++ [evaluated]) atDecls children
      | .nestedRule nested =>
        match evalRuleset n st nested selectors with
        | (.error e, st2) => (.error e, st2)
        | (.ok nestedOutput, st2) =>
          evalAtRuleItems n st2 rest selectors scopedDecls atDecls (children ++ nestedOutput)
      | .mixinDefinition d =>
        evalAtRuleItems n (setMixin st d) rest selectors scopedDecls atDecls children
      | .mixinCall call =>
        if selectors.isEmpty then
          match expandMixin n st call selectors atDecls children with
          | (.error e, st2) => (.error e, st2)
          | (.ok (d2, c2), st2) => evalAtRuleItems n st2 rest selectors scopedDecls d2 c2
        else
          match expandMixin n st call selectors scopedDecls children with
          | (.error e, st2) => (.error e, st2)
          | (.ok (d2, c2), st2) => evalAtRuleItems n st2 rest selectors d2 atDecls c2
      | .atRule inner =>
        match evalAtRule n st inner selectors with
        | (.error e, st2) => (.error e, st2)
        | (.ok ear, st2) =>
          evalAtRuleItems n st2 rest selectors scopedDecls atDecls
            (children ++ [EvaluatedNode.atRule ear.name ear.params ear.declarations ear.children])
      | .detachedCall call =>
        if selectors.isEmpty then
          match invokeDetachedRuleset n st call.name selectors atDecls children with
          | (.error e, st2) => (.error e, st2)
          | (.ok (d2, c2), st2) => evalAtRuleItems n st2 rest selectors scopedDecls d2 c2
        else
          match invokeDetachedRuleset n st call.name selectors scopedDecls children with
          | (.error e, st2) => (.error e, st2)
          | (.ok (d2, c2), st2) => evalAtRuleItems n st2 rest selectors d2 atDecls c2
termination_by fuel

end

/-- The `for statement in stylesheet.statements` loop of
`Evaluator::evaluate`, carrying the `imports` and `nodes` accumulators. -/
def evaluateStatements (fuel : Nat) : EvalState →
    List Statement → List String → List EvaluatedNode →
    Except LessError (List String × List EvaluatedNode) × EvalState
  | st, [], imports, nodes => (.ok (imports, nodes), st)
  | st, stmt :: rest, imports, nodes =>
    match stmt with
    | .importStmt imp => evaluateStatements fuel st rest (imports ++ [imp.raw]) nodes
    | .variableDecl var =>
      match evalValue st var.value with
      | .error e => (.error e, st)
      | .ok value =>
        evaluateStatements fuel (setVariableText st var.name value) rest imports nodes
    | .ruleSet rule =>
      match evalRuleset fuel st rule [] with
      | (.error e, st2) => (.error e, st2)
      | (.ok produced, st2) => evaluateStatements fuel st2 rest imports (nodes ++ produced)
    | .atRule ar =>
      match evalAtRule fuel st ar [] with
      | (.error e, st2) => (.error e, st2)
      | (.ok ear, st2) =>
        evaluateStatements fuel st2 rest imports
          (nodes ++ [EvaluatedNode.atRule ear.name ear.params ear.declarations ear.children])
    | .mixinDefinition d => evaluateStatements fuel (setMixin st d) rest imports nodes
    | .mixinCall call =>
      match expandMixin fuel st call [] [] [] with
      | (.error e, st2) => (.error e, st2)
      | (.ok (declarations, produced), st2) =>
        if !declarations.isEmpty then
          (.error (.eval "顶层 mixin 调用产生了无法附加的声明"), st2)
        else evaluateStatements fuel st2 rest imports (nodes ++ produced)

/-- Model of `Evaluator::evaluate`. -/
def evaluate (fuel : Nat) (st : EvalState) (sheet : Stylesheet) :
    Except LessError EvaluatedStylesheet × EvalState :=
  match evaluateStatements fuel st sheet.statements [] [] with
  | (.error e, st2) => (.error e, st2)
  | (.ok (imports, nodes), st2) => (.ok ⟨imports, nodes⟩, st2)

/-! ## utils.rs -/

/-- The character loop of `collapse_whitespace`. -/
def collapseWs : List Char → Bool → List Char
  | [], _ => []
  | c :: rest, lastWasSpace =>
    if c.isWhitespace then
      if !lastWasSpace then ' ' :: collapseWs rest true
      else collapseWs rest true
    else c :: collapseWs rest false

/-- Model of `collapse_whitespace` from `utils.rs`. -/
def collapseWhitespace (input : String) : String :=
  strTrim ⟨collapseWs input.data false⟩

/-- Model of `indent` from `utils.rs`: two spaces per level. -/
def indent (level : Nat) : String := ⟨List.replicate (2 * level) ' '⟩

/-! ## serializer.rs

The Rust renderers append to a `&mut String`; the embedding passes the
accumulated output in and returns the extended output. -/

/-- Model of `Serializer::format_declaration`. -/
def formatDeclaration (decl : EvaluatedDeclaration) : String :=
  strTrim decl.name ++ ": " ++ strTrim decl.value ++
    (if decl.important then " !important" else "") ++ ";"

/-- Model of `Serializer::format_declaration_minified`. -/
def formatDeclarationMinified (decl : EvaluatedDeclaration) : String :=
  strTrim decl.name ++ ":" ++ collapseWhitespace decl.value ++
    (if decl.important then "!important" else "")

/-- Model of `Serializer::render_rule_pretty`: rules with no declarations render
nothing. -/
def renderRulePretty (level : Nat) (selectors : List String)
    (declarations : List EvaluatedDeclaration) (output : String) : String :=
  if declarations.isEmpty then output
  else
    let head := output ++ indent level ++ String.intercalate ", " selectors ++ " \x7b\n"
    let withDecls := declarations.foldl
      (fun acc decl => acc ++ indent (level + 1) ++ formatDeclaration decl ++ "\n") head
    withDecls ++ indent level ++ "\x7d\n"

/-- Model of `Serializer::render_rule_minified`. -/
def renderRuleMinified (selectors : List String)
    (declarations : List EvaluatedDeclaration) (output : String) : String :=
  if declarations.isEmpty then output
  else
    let head := output ++ String.intercalate "," selectors ++ "\x7b"
    let withDecls := (declarations.enum.foldl
      (fun acc (p : Nat × EvaluatedDeclaration) =>
        acc ++ (if p.1 > 0 then ";" else "") ++ formatDeclarationMinified p.2) head)
    withDecls ++ "\x7d"

mutual

/-- Model of `Serializer::render_node_pretty`. -/
def renderNodePretty (level : Nat) (node : EvaluatedNode) (output : String) :
    String :=
  match node with
  | .rule selectors declarations => renderRulePretty level selectors declarations output
  | .atRule name params declarations children =>
    renderAtRulePretty level name params declarations children output
termination_by (sizeOf node, 0)

/-- Model of `Serializer::render_at_rule_pretty`: rendered even with no declarations
and no children. -/
def renderAtRulePretty (level : Nat) (name params : String)
    (declarations : List EvaluatedDeclaration) (children : List EvaluatedNode)
    (output : String) : String :=
  let o1 := output ++ indent level ++ "@" ++ name ++
    (if !params.isEmpty then " " ++ strTrim params else "") ++ " \x7b\n"
  let o2 := declarations.foldl
    (fun acc d => acc ++ indent (level + 1) ++ formatDeclaration d ++ "\n") o1
  renderChildrenPretty (level + 1) children o2 ++ indent level ++ "\x7d\n"
termination_by (sizeOf children, 1)

/-- The child loop of `render_at_rule_pretty`, with its trailing-newline
fix-up after each child. -/
def renderChildrenPretty (level : Nat) (children : List EvaluatedNode)
    (output : String) : String :=
  match children with
  | [] => output
  | child :: rest =>
    let o := renderNodePretty level child output
    let o2 := if !o.endsWith "\n" then o ++ "\n" else o
    renderChildrenPretty level rest o2
termination_by (sizeOf children, 0)

end

mutual

/-- Model of `Serializer::render_node_minified`. -/
def renderNodeMinified (node : EvaluatedNode) (output : String) : String :=
  match node with
  | .rule selectors declarations => renderRuleMinified selectors declarations output
  | .atRule name params declarations children =>
    renderAtRuleMinified name params declarations children output
termination_by (sizeOf node, 0)

/-- Model of `Serializer::render_at_rule_minified`. -/
def renderAtRuleMinified (name params : String)
    (declarations : List EvaluatedDeclaration) (children : List EvaluatedNode)
    (output : String) : String :=
  let o1 := output ++ "@" ++ name ++
    (if !(strTrim params).isEmpty then " " ++ collapseWhitespace params else "") ++ "\x7b"
  let o2 := declarations.enum.foldl
    (fun acc (p : Nat × EvaluatedDeclaration) =>
      acc ++ (if p.1 > 0 then ";" else "") ++ formatDeclarationMinified p.2) o1
  renderChildrenMinified children o2 ++ "\x7d"
termination_by (sizeOf children, 1)

/-- The child loop of `render_at_rule_minified`. -/
def renderChildrenMinified (children : List EvaluatedNode) (output : String) :
    String :=
  match children with
  | [] => output
  | child :: rest => renderChildrenMinified rest (renderNodeMinified child output)
termination_by (sizeOf children, 0)

end

/-- The node loop of `Serializer::render_pretty`: a blank line after every
node except the last. -/
def renderPrettyNodes (nodes : List EvaluatedNode) (output : String) : String :=
  match nodes with
  | [] => output
  | [node] => renderNodePretty 0 node output
  | node :: rest => renderPrettyNodes rest (renderNodePretty 0 node output ++ "\n")

/-- Model of `Serializer::render_pretty`. -/
def renderPretty (sheet : EvaluatedStylesheet) : String :=
  let o1 := sheet.imports.foldl (fun acc imp => acc ++ strTrim imp ++ "\n") ""
  let o2 := if !sheet.imports.isEmpty ∧ !sheet.nodes.isEmpty then o1 ++ "\n" else o1
  strTrim (renderPrettyNodes sheet.nodes o2)

/-- Model of `Serializer::render_minified` (trailing newlines are stripped at the
end). -/
def renderMinified (sheet : EvaluatedStylesheet) : String :=
  let o1 := sheet.imports.foldl (fun acc imp => acc ++ strTrim imp ++ "\n") ""
  let o2 := renderChildrenMinified sheet.nodes o1
  ⟨(o2.data.reverse.dropWhile (· = '\n')).reverse⟩

/-- Model of `Serializer::to_css`. -/
def toCss (minify : Bool) (sheet : EvaluatedStylesheet) : String :=
  if minify then renderMinified sheet else renderPretty sheet

/-! ## lib.rs -/

/-- Model of `CompileOptions` from `lib.rs` (paths modelled as strings). -/
structure CompileOptions where
  minify : Bool
  currentDir : Option String
  includePaths : List String

/-- Model of `compile` from `lib.rs`.  The parser (`LessParser::parse`, a
character-level parser outside the scope of the claims) and the import
expander (`expand_imports`, whose behaviour depends on the filesystem and
canonicalisation) are taken as parameters; `compile` itself decides, from
the options, whether the expander runs at all. -/
def compile (parse : String → Except LessError Stylesheet)
    (expander : Stylesheet → Except LessError Stylesheet)
    (fuel : Nat) (source : String) (options : CompileOptions) :
    Except LessError String :=
  match parse source with
  | .error e => .error e
  | .ok ast0 =>
    match (if options.currentDir.isSome ∨ !options.includePaths.isEmpty then
             expander ast0
           else .ok ast0) with
    | .error e => .error e
    | .ok ast =>
      match evaluate fuel initialState ast with
      | (.error e, _) => .error e
      | (.ok stylesheet, _) => .ok (toCss options.minify stylesheet)

/-! ## parser.rs — import statements -/

/-- Rust `str::split` with a character predicate, producing the raw
segments (empty segments included). -/
def splitOnPred (p : Char → Bool) : List Char → List (List Char) :=
  go []
where
  go (acc : List Char) : List Char → List (List Char)
    | [] => [acc.reverse]
    | c :: rest => if p c then acc.reverse :: go [] rest else go (c :: acc) rest

/-- Model of `LessParser::extract_import_path`. -/
def extractImportPath (input : String) : Option String :=
  let trimmed := strTrim input
  if trimmed.isEmpty then none
  else
    match trimmed.data.head? with
    | none => none
    | some first =>
      if first = '"' ∨ first = '\'' then
        match findChar (trimmed.data.drop 1) first with
        | some end_ => some ⟨(trimmed.data.drop 1).take end_⟩
        | none => none
      else if startsWithStr trimmed "url(" then none
      else
        let token := listTrim (trimmed.data.takeWhile (fun c => !c.isWhitespace))
        if token.isEmpty then none else some ⟨token⟩

/-- The option-list parsing step of `LessParser::parse_import`: the
optional leading `(opt[, opt]*)` group of the import spec, returning the
lowercased non-empty options and the remaining text. -/
def importOptionsRem (spec : String) : Except LessError (List String × List Char) :=
  let r0 := (strTrimStart spec).data
  if r0.head? = some '(' then
    match findChar r0 ')' with
    | some end_ =>
      let optStr := (r0.take end_).drop 1
      let options := ((splitOnPred (fun c => c = ',' ∨ c.isWhitespace) optStr).filter
        (fun s => !s.isEmpty)).map (fun s => toAsciiLower ⟨listTrim s⟩)
      .ok (options, (r0.drop (end_ + 1)).dropWhile Char.isWhitespace)
    | none => .error (.parse "不完整的 @import 选项" 0)  -- byte offset of the cursor not modelled
  else .ok ([], r0)

/-- Model of `LessParser::parse_import` from the point where the cursor has
delivered the text between `@import` and the terminating `;` (the `spec`
string of the Rust code); the cursor plumbing before that point does not
affect the produced `ImportStatement`. -/
def parseImportSpec (spec : String) : Except LessError ImportStatement :=
  match importOptionsRem spec with
  | .error e => .error e
  | .ok (options, remainder) =>
    let trimmed : String := ⟨listTrim remainder⟩
    let path := extractImportPath trimmed
    let isCss0 := options.any (· = "css")
    let isCss :=
      if !isCss0 then
        match path with
        | some target => endsWithStr target ".css"
        | none => true
      else isCss0
    .ok ⟨"@import " ++ trimmed ++ ";", path, isCss⟩

/-! ## Definitions written from the wording of the specification, for the
refinement claims (they are compared with the definitions above, which are
written from the source). -/

/-- Written from the spec (§4.3, selector combination), for claim C5:
if `P` is empty the result is the values of `C` in order; otherwise the
Cartesian product with parents in the outer loop and children in the inner
loop, a child containing `&` having every `&` replaced by the parent and
the result trimmed, and a child without `&` yielding the trimmed parent, a
single space, and the trimmed child. -/
def specCombineSelectors (parents : List String) (current : List Selector) :
    List String :=
  if parents = [] then current.map (·.value)
  else
    (parents.map fun p =>
      current.map fun c =>
        if containsSub c.value "&" then strTrim (replaceChar c.value '&' p)
        else strTrim p ++ " " ++ strTrim c.value).flatten

/-- The per-channel overlay composition exactly as claim C3 words it:
`cr = mode(cb, cs)` then `cr ← (at·cs + ab·(cb − at·(cb + cs − cr))) / ar`
with `mode = base ≤ 0.5 ? 2·base·overlay : 1 − 2·(1−base)·(1−overlay)`
applied with `cb` as base.  (Division is total on `ℚ` with `x / 0 = 0`;
the concrete counterexample instance has `ar = 1`.) -/
def claimOverlayChannel (ab at_ ar cb cs : ℚ) : ℚ :=
  let cr := if cb ≤ 1 / 2 then 2 * cb * cs else 1 - 2 * (1 - cb) * (1 - cs)
  (at_ * cs + ab * (cb - at_ * (cb + cs - cr))) / ar

/-- The function `overlay(top, bottom)` as claim C3 states it: `cb` and `ab` are the
BOTTOM color channel and alpha, `cs` and `at` are the TOP color channel
and alpha, and `ar = at + ab·(1−at)`. -/
def specOverlayClaimed (top bottom : Rgba) : Rgba :=
  let ab := bottom.a
  let at_ := top.a
  let ar := at_ + ab * (1 - at_)
  ⟨claimOverlayChannel ab at_ ar bottom.r top.r,
   claimOverlayChannel ab at_ ar bottom.g top.g,
   claimOverlayChannel ab at_ ar bottom.b top.b, ar⟩

/-- The per-channel composition of the amended claim C3: as the claim
formula, but guarded by `ar > 0` (otherwise the mode result is kept). -/
def amendedOverlayChannel (ab at_ ar cb cs : ℚ) : ℚ :=
  let cr := if cb ≤ 1 / 2 then 2 * cb * cs else 1 - 2 * (1 - cb) * (1 - cs)
  if ar > 0 then (at_ * cs + ab * (cb - at_ * (cb + cs - cr))) / ar else cr

/-- The function `overlay(top, bottom)` as the amended claim C3 states it: `cb` and `ab`
come from the TOP (first) argument, `cs` and `at` from the BOTTOM (second)
argument, the mode base is the top channel, `ar = at + ab·(1−at)`, the
composite applies only when `ar > 0`, and the result is clamped to `[0,1]`
per channel. -/
def specOverlayAmended (top bottom : Rgba) : Rgba :=
  let ab := top.a
  let at_ := bottom.a
  let ar := at_ + ab * (1 - at_)
  (Rgba.mk (amendedOverlayChannel ab at_ ar top.r bottom.r)
    (amendedOverlayChannel ab at_ ar top.g bottom.g)
    (amendedOverlayChannel ab at_ ar top.b bottom.b) ar).clampAll

/-! ## Predicates and concrete inputs used by the claims -/

mutual

/-- Every `Rule` node in the tree (at-rule children included) has a
non-empty declarations list. -/
def nodeRulesNonEmpty : EvaluatedNode → Bool
  | .rule _ decls => !decls.isEmpty
  | .atRule _ _ _ children => nodesRulesNonEmpty children

/-- Conjunction of `nodeRulesNonEmpty` over a list of nodes. -/
def nodesRulesNonEmpty : List EvaluatedNode → Bool
  | [] => true
  | node :: rest => nodeRulesNonEmpty node && nodesRulesNonEmpty rest

end

/-- The raw texts of all import statements, in order. -/
def importRaws : List Statement → List String
  | [] => []
  | .importStmt imp :: rest => imp.raw :: importRaws rest
  | _ :: rest => importRaws rest

/-- The ruleset `.x` with body `color: @undef;`, whose body fails to evaluate. -/
def ruleBad : RuleSet :=
  .mk [⟨".x"⟩] [.declaration ⟨"color", ⟨[.variableRef "undef"]⟩, false⟩]

/-- The ruleset `.a` with body `color: red`, which evaluates successfully. -/
def ruleGood : RuleSet :=
  .mk [⟨".a"⟩] [.declaration ⟨"color", ⟨[.literal "red"]⟩, false⟩]

/-- The ruleset `.a` whose only body item is the nested rule `.b` with
body `color: #fff`. -/
def sheetNest : Stylesheet :=
  ⟨[.ruleSet (.mk [⟨".a"⟩]
    [.nestedRule (.mk [⟨".b"⟩]
      [.declaration ⟨"color", ⟨[.literal "#fff"]⟩, false⟩])])]⟩

/-- A stylesheet containing a non-CSS `.less` import and a ruleset. -/
def sheetImp : Stylesheet :=
  ⟨[.importStmt ⟨"@import \"a.less\";", some "a.less", false⟩, .ruleSet ruleGood]⟩

/-! ## Shared helper lemmas -/

theorem listContainsSub_single (c : Char) (cs : List Char) :
    listContainsSub [c] cs = cs.contains c := by
  induction cs with
  | nil => rfl
  | cons x xs ih =>
    simp only [listContainsSub, List.isPrefixOf, List.contains_cons, ih]
    by_cases hcx : c = x <;> simp [hcx]

theorem strIsEmpty_eq_false {s : String} (h : s ≠ "") : s.isEmpty = false := by
  cases hb : s.isEmpty
  · rfl
  · exact absurd ((String.isEmpty_iff s).mp hb) h

theorem strIsEmpty_eq_true {s : String} (h : s = "") : s.isEmpty = true := by
  subst h; rfl

theorem emptyString_isEmpty : ("" : String).isEmpty = true := rfl

theorem foldl_append_eq_flatten {α β : Type} (f : α → List β) (ps : List α) :
    ∀ acc : List β, ps.foldl (fun r p => r ++ f p) acc = acc ++ (ps.map f).flatten := by
  induction ps with
  | nil => intro acc; simp
  | cons p rest ih => intro acc; simp [ih]

/-! ## Claims -/

/-- C5: `combine_selectors` computes exactly the selector list the spec
describes: values of `C` when `P` is empty, else the parents-outer
Cartesian product with `&`-substitution (trimmed) or trimmed
parent-space-child. -/
theorem c5_combine_selectors (parents : List String) (current : List Selector) :
    combineSelectors parents current = specCombineSelectors parents current := by
  unfold combineSelectors specCombineSelectors
  by_cases h : parents = []
  · simp [h]
  · have hne : parents.isEmpty = false := by
      cases parents with
      | nil => exact absurd rfl h
      | cons a l => rfl
    rw [hne, if_neg h]
    simp only [Bool.false_eq_true, if_false]
    rw [foldl_append_eq_flatten]
    simp only [List.nil_append]
    refine congrArg List.flatten (List.map_congr_left fun p _ => ?_)
    refine List.map_congr_left fun c _ => ?_
    rw [containsSub, listContainsSub_single]

/-- C6 (amended): the operator table of `apply_operator`: `+`/`-` need
equal units and add or subtract under that unit; `*` needs at most one
unit-bearing side and multiplies keeping the non-empty unit; `/` needs a
unitless divisor of magnitude at least `f64::EPSILON` (not merely
non-zero) and divides keeping the left unit; every violated constraint is
an error. -/
theorem c6_apply_operator_table (a b : Quantity) :
    ((a.unit = b.unit →
        applyOperator a '+' b = .ok ⟨a.value + b.value, a.unit⟩ ∧
        applyOperator a '-' b = .ok ⟨a.value - b.value, a.unit⟩) ∧
      (a.unit ≠ b.unit →
        exceptIsOk (applyOperator a '+' b) = false ∧
        exceptIsOk (applyOperator a '-' b) = false)) ∧
    (((a.unit = "" ∨ b.unit = "") →
        applyOperator a '*' b =
          .ok ⟨a.value * b.value, if a.unit = "" then b.unit else a.unit⟩) ∧
      (a.unit ≠ "" → b.unit ≠ "" →
        exceptIsOk (applyOperator a '*' b) = false)) ∧
    ((b.unit = "" → ¬ratAbs b.value < f64Epsilon →
        applyOperator a '/' b = .ok ⟨a.value / b.value, a.unit⟩) ∧
      ((b.unit ≠ "" ∨ ratAbs b.value < f64Epsilon) →
        exceptIsOk (applyOperator a '/' b) = false)) := by
  refine ⟨⟨?_, ?_⟩, ⟨?_, ?_⟩, ⟨?_, ?_⟩⟩
  · intro h
    constructor <;> simp [applyOperator, h]
  · intro h
    constructor <;> simp [applyOperator, h, exceptIsOk]
  · intro h
    rcases h with h | h
    · simp [applyOperator, strIsEmpty_eq_true h, h, emptyString_isEmpty]
    · by_cases h2 : a.unit = "" <;>
        simp [applyOperator, strIsEmpty_eq_true h, h, h2, emptyString_isEmpty,
          strIsEmpty_eq_false]
  · intro h1 h2
    simp [applyOperator, exceptIsOk, strIsEmpty_eq_false h1, strIsEmpty_eq_false h2]
  · intro h1 h2
    simp [applyOperator, h2, strIsEmpty_eq_true h1]
  · intro h
    rcases h with h | h
    · by_cases h2 : ratAbs b.value < f64Epsilon <;>
        simp [applyOperator, exceptIsOk, strIsEmpty_eq_false h, h2]
    · simp [applyOperator, exceptIsOk, h]

/-- Witness for C6 at concrete quantities: `3px + 4px = 7px` through the
theorem. -/
theorem c6_witness :
    applyOperator ⟨3, "px"⟩ '+' ⟨4, "px"⟩ = .ok ⟨7, "px"⟩ := by
  have h := (c6_apply_operator_table ⟨3, "px"⟩ ⟨4, "px"⟩).1.1 rfl
  have h2 := h.1
  norm_num at h2 ⊢
  exact h2

/-- Counterexample for C6 as frozen: `1 / (2⁻⁵³)` has a unitless, non-zero
divisor, yet `apply_operator` reports the division-by-zero error because
the divisor magnitude is below `f64::EPSILON`. -/
theorem c6_counterexample :
    (Quantity.mk (1 / 2 ^ 53) "").value ≠ 0 ∧
    (Quantity.mk (1 / 2 ^ 53) "").unit = "" ∧
    exceptIsOk (applyOperator ⟨1, ""⟩ '/' ⟨1 / 2 ^ 53, ""⟩) = false := by
  have hlt : ratAbs ((1 : ℚ) / 2 ^ 53) < f64Epsilon := by
    unfold ratAbs f64Epsilon
    norm_num
  refine ⟨by norm_num, rfl, ?_⟩
  simp only [applyOperator]
  rw [if_pos hlt]
  rfl

/-- C3 (amended): `overlay(top, bottom)` computes each channel by the
claimed Porter-Duff composition, but with the roles swapped relative to
the frozen claim: `cb`/`ab` come from the TOP (first) argument, `cs`/`at`
from the BOTTOM (second) argument, the mode base is the top channel, the
composite applies only when `ar > 0`, and the result is clamped. -/
theorem c3_overlay_formula (top bottom : Rgba) :
    overlay top bottom = specOverlayAmended top bottom := by
  have hmode : ∀ cb cs : ℚ,
      blendOverlay cb cs =
        (if cb ≤ 1 / 2 then 2 * cb * cs else 1 - 2 * (1 - cb) * (1 - cs)) := by
    intro cb cs
    unfold blendOverlay blendMultiply blendScreen
    split <;> ring
  have hch : ∀ ab at_ ar cb cs : ℚ,
      colorBlendChannel blendOverlay ab at_ ar cb cs =
        amendedOverlayChannel ab at_ ar cb cs := by
    intro ab at_ ar cb cs
    unfold colorBlendChannel amendedOverlayChannel
    rw [hmode]
  simp only [overlay, colorBlend, specOverlayAmended, hch]

/-- Counterexample for C3 as frozen: on
`overlay(rgba(255,255,255,0.05), #2c2c2c)` the code (top argument as
`cb`/`ab`) yields `#373737`, while the claimed role assignment (bottom
argument as `cb`/`ab`) would yield `#2e2e2e`. -/
theorem c3_counterexample :
    overlay ⟨1, 1, 1, 1 / 20⟩ ⟨44 / 255, 44 / 255, 44 / 255, 1⟩ ≠
      specOverlayClaimed ⟨1, 1, 1, 1 / 20⟩ ⟨44 / 255, 44 / 255, 44 / 255, 1⟩ ∧
    parseColor "rgba(255, 255, 255, 0.05)" = some ⟨1, 1, 1, 1 / 20⟩ ∧
    parseColor "#2c2c2c" = some ⟨44 / 255, 44 / 255, 44 / 255, 1⟩ ∧
    formatHex (overlay ⟨1, 1, 1, 1 / 20⟩ ⟨44 / 255, 44 / 255, 44 / 255, 1⟩) =
      "#373737" ∧
    formatHex (specOverlayClaimed ⟨1, 1, 1, 1 / 20⟩ ⟨44 / 255, 44 / 255, 44 / 255, 1⟩) =
      "#2e2e2e" := by
  refine ⟨by with_unfolding_all decide, ?_, ?_, ?_, ?_⟩ <;> with_unfolding_all rfl

/-- C8: evaluating the whole-value expression
`overlay(rgba(255,255,255,0.05),#2c2c2c)` yields exactly `#373737`. -/
theorem c8_overlay_example :
    computeValue "overlay(rgba(255,255,255,0.05),#2c2c2c)" = .ok "#373737" := by
  with_unfolding_all rfl

/-- C10: an evaluated at-rule with zero declarations and zero children is
still rendered: pretty mode emits `@name[ params] {` and a closing brace
with an empty body, minified mode emits `@name[ params]` followed by an
empty brace pair. -/
theorem c10_empty_at_rule_rendered (level : Nat) (name params output : String) :
    renderAtRulePretty level name params [] [] output =
      output ++ indent level ++ "@" ++ name ++
        (if !params.isEmpty then " " ++ strTrim params else "") ++ " \x7b\n" ++
        indent level ++ "\x7d\n" ∧
    renderAtRuleMinified name params [] [] output =
      output ++ "@" ++ name ++
        (if !(strTrim params).isEmpty then " " ++ collapseWhitespace params else "") ++
        "\x7b" ++ "\x7d" := by
  constructor
  · simp [renderAtRulePretty, renderChildrenPretty]
  · simp [renderAtRuleMinified, renderChildrenMinified]

/-- C9: a parsed import statement has `is_css = true` exactly when the
option list contains `css`, or the extracted path ends in `.css`, or no
path could be extracted; and a `url(...)` target always yields no path. -/
theorem c9_import_is_css :
    (∀ spec options remainder stmt,
      importOptionsRem spec = .ok (options, remainder) →
      parseImportSpec spec = .ok stmt →
      (stmt.isCss = true ↔
        options.any (· = "css") = true ∨ stmt.path = none ∨
        ∃ p, stmt.path = some p ∧ endsWithStr p ".css" = true)) ∧
    (∀ input, startsWithStr (strTrim input) "url(" = true →
      extractImportPath input = none) := by
  constructor
  · intro spec options remainder stmt h1 h2
    unfold parseImportSpec at h2
    rw [h1] at h2
    injection h2 with h2
    subst h2
    cases hb : options.any (· = "css") with
    | true => simp [hb]
    | false =>
      cases hp : extractImportPath ⟨listTrim remainder⟩ with
      | none => simp [hb, hp]
      | some p => simp [hb, hp]
  · intro input h
    have hpre : "url(".data <+: (strTrim input).data := by
      rw [startsWithStr] at h
      exact List.isPrefixOf_iff_prefix.mp h
    obtain ⟨rest, hr⟩ := hpre
    have hne : (strTrim input).isEmpty = false := by
      apply strIsEmpty_eq_false
      intro h0
      rw [h0] at hr
      exact absurd hr (by simp)
    simp only [extractImportPath, startsWithStr, hne, Bool.false_eq_true, if_false]
    rw [← hr]
    simp [List.isPrefixOf]

/-- Witness for C9 at the concrete import spec `(css) "r.css"`. -/
theorem c9_witness :
    (ImportStatement.mk "@import \"r.css\";" (some "r.css") true).isCss = true :=
  (c9_import_is_css.1 " (css) \"r.css\"" ["css"] "\"r.css\"".data
      ⟨"@import \"r.css\";", some "r.css", true⟩
      (by with_unfolding_all rfl) (by with_unfolding_all rfl)).mpr
    (Or.inl (by with_unfolding_all rfl))

/-- C1 (amended): a hard token error from arithmetic evaluation does NOT
propagate out of `compute_value`: when no color-function branch fires and
no `var(`/`url(`/`unit(`/`calc(` guard applies, an arithmetic error makes
`compute_value` fall back to returning the original text. -/
theorem c1_arith_errors_swallowed (input : String)
    (hcf : evaluateColorFunction input = .ok none)
    (hinl : replaceInlineColorFunctions input = .ok none)
    (hvar : containsSub input "var(" = false)
    (hurl : containsSub input "url(" = false)
    (hunit : containsSub input "unit(" = false)
    (hcalc : containsSub input "calc(" = false)
    (harith : exceptIsOk (evaluateArithmetic input) = false) :
    computeValue input = .ok input := by
  unfold computeValue
  cases hempty : input.isEmpty with
  | true =>
    have h0 : input = "" := (String.isEmpty_iff input).mp hempty
    subst h0
    simp
  | false =>
    simp only [hempty, Bool.false_eq_true, if_false]
    rw [hcf, hinl]
    simp only [hvar, hurl, hunit, hcalc, Bool.false_eq_true, if_false]
    cases h : evaluateArithmetic input with
    | error e => rfl
    | ok v =>
      cases v with
      | none => rfl
      | some s =>
        rw [h] at harith
        exact absurd harith (by simp [exceptIsOk])

/-- Counterexample for C1 as frozen: `1px + 2em` is a mixed-unit addition,
a hard arithmetic error, yet `compute_value` returns the original text
instead of propagating the error, so the compile does not fail. -/
theorem c1_counterexample :
    exceptIsOk (evaluateArithmetic "1px + 2em") = false ∧
    computeValue "1px + 2em" = .ok "1px + 2em" := by
  constructor <;> with_unfolding_all rfl

/-- Witness for C1 at the concrete mixed-unit input `1px + 2em`. -/
theorem c1_witness : computeValue "1px + 2em" = .ok "1px + 2em" :=
  c1_arith_errors_swallowed "1px + 2em" (by with_unfolding_all rfl)
    (by with_unfolding_all rfl) (by with_unfolding_all rfl)
    (by with_unfolding_all rfl) (by with_unfolding_all rfl)
    (by with_unfolding_all rfl) (by with_unfolding_all rfl)

/-! ## Scope-depth lemmas for claim C2 -/

theorem setVariableText_lens (st : EvalState) (n v : String) :
    (setVariableText st n v).scopes.length = st.scopes.length ∧
    (setVariableText st n v).mixinScopes.length = st.mixinScopes.length := by
  unfold setVariableText
  cases h : st.scopes <;> simp [h]

theorem setVariableRuleset_lens (st : EvalState) (n : String) (b : List RuleBody) :
    (setVariableRuleset st n b).scopes.length = st.scopes.length ∧
    (setVariableRuleset st n b).mixinScopes.length = st.mixinScopes.length := by
  unfold setVariableRuleset
  cases h : st.scopes <;> simp [h]

theorem setMixin_lens (st : EvalState) (d : MixinDefinition) :
    (setMixin st d).scopes.length = st.scopes.length ∧
    (setMixin st d).mixinScopes.length = st.mixinScopes.length := by
  unfold setMixin
  cases h : st.mixinScopes <;> simp [h]

theorem pushPair_lens (st : EvalState) :
    (pushMixinScope (pushScope st)).scopes.length = st.scopes.length + 1 ∧
    (pushMixinScope (pushScope st)).mixinScopes.length = st.mixinScopes.length + 1 := by
  simp [pushScope, pushMixinScope]

theorem popPair_lens (st : EvalState) :
    (popScope (popMixinScope st)).scopes.length = st.scopes.length - 1 ∧
    (popScope (popMixinScope st)).mixinScopes.length = st.mixinScopes.length - 1 := by
  simp [popScope, popMixinScope, List.length_tail]

theorem bindMixinArgs_ok_lens :
    ∀ (pairs : List (MixinArgument × MixinParam)) (st : EvalState) u st',
      bindMixinArgs st pairs = (.ok u, st') →
      st'.scopes.length = st.scopes.length ∧
      st'.mixinScopes.length = st.mixinScopes.length := by
  intro pairs
  induction pairs with
  | nil =>
    intro st u st' h
    simp only [bindMixinArgs] at h
    injection h with _ h2
    subst h2
    exact ⟨rfl, rfl⟩
  | cons pair rest ih =>
    intro st u st' h
    simp only [bindMixinArgs] at h
    split at h
    · split at h
      · simp at h
      · have hr := ih _ _ _ h
        exact ⟨hr.1.trans (setVariableText_lens st _ _).1,
          hr.2.trans (setVariableText_lens st _ _).2⟩
    · have hr := ih _ _ _ h
      exact ⟨hr.1.trans (setVariableRuleset_lens st _ _).1,
        hr.2.trans (setVariableRuleset_lens st _ _).2⟩

theorem bindMixinDefaults_ok_lens :
    ∀ (params : List MixinParam) (st : EvalState) (dn : String) u st',
      bindMixinDefaults st dn params = (.ok u, st') →
      st'.scopes.length = st.scopes.length ∧
      st'.mixinScopes.length = st.mixinScopes.length := by
  intro params
  induction params with
  | nil =>
    intro st dn u st' h
    simp only [bindMixinDefaults] at h
    injection h with _ h2
    subst h2
    exact ⟨rfl, rfl⟩
  | cons param rest ih =>
    intro st dn u st' h
    simp only [bindMixinDefaults] at h
    split at h
    · split at h
      · simp at h
      · have hr := ih _ _ _ _ h
        exact ⟨hr.1.trans (setVariableText_lens st _ _).1,
          hr.2.trans (setVariableText_lens st _ _).2⟩
    · simp at h

/-- Master depth-preservation lemma for the mutual evaluator functions:
every `Ok` return leaves both scope stacks at their entry depth. -/
theorem evalDepths (fuel : Nat) :
    (∀ st item sel d p r st',
      handleRuleBodyItem fuel st item sel d p = (.ok r, st') →
      st'.scopes.length = st.scopes.length ∧
      st'.mixinScopes.length = st.mixinScopes.length) ∧
    (∀ st items sel d p r st',
      evalBodyItems fuel st items sel d p = (.ok r, st') →
      st'.scopes.length = st.scopes.length ∧
      st'.mixinScopes.length = st.mixinScopes.length) ∧
    (∀ st rule ps r st',
      evalRuleset fuel st rule ps = (.ok r, st') →
      st'.scopes.length = st.scopes.length ∧
      st'.mixinScopes.length = st.mixinScopes.length) ∧
    (∀ st call sel d p r st',
      expandMixin fuel st call sel d p = (.ok r, st') →
      st'.scopes.length = st.scopes.length ∧
      st'.mixinScopes.length = st.mixinScopes.length) ∧
    (∀ st name sel d p r st',
      invokeDetachedRuleset fuel st name sel d p = (.ok r, st') →
      st'.scopes.length = st.scopes.length ∧
      st'.mixinScopes.length = st.mixinScopes.length) ∧
    (∀ st ar sel r st',
      evalAtRule fuel st ar sel = (.ok r, st') →
      st'.scopes.length = st.scopes.length ∧
      st'.mixinScopes.length = st.mixinScopes.length) ∧
    (∀ st items sel sd ad ch r st',
      evalAtRuleItems fuel st items sel sd ad ch = (.ok r, st') →
      st'.scopes.length = st.scopes.length ∧
      st'.mixinScopes.length = st.mixinScopes.length) := by
  induction fuel with
  | zero =>
    refine ⟨?_, ?_, ?_, ?_, ?_, ?_, ?_⟩ <;>
      · intros
        rename_i h
        simp only [handleRuleBodyItem, evalBodyItems, evalRuleset, expandMixin,
          invokeDetachedRuleset, evalAtRule, evalAtRuleItems] at h
        exact absurd h (by simp)
  | succ n ih =>
    obtain ⟨ihH, ihB, ihR, ihM, ihD, ihA, ihAI⟩ := ih
    have hTrans : ∀ (a b c : EvalState),
        (c.scopes.length = b.scopes.length ∧
          c.mixinScopes.length = b.mixinScopes.length) →
        (b.scopes.length = a.scopes.length ∧
          b.mixinScopes.length = a.mixinScopes.length) →
        c.scopes.length = a.scopes.length ∧
        c.mixinScopes.length = a.mixinScopes.length :=
      fun _ _ _ h1 h2 => ⟨h1.1.trans h2.1, h1.2.trans h2.2⟩
    refine ⟨?_, ?_, ?_, ?_, ?_, ?_, ?_⟩
    -- handleRuleBodyItem
    · intro st item sel d p r st' h
      cases item with
      | variableDecl var =>
        simp only [handleRuleBodyItem] at h
        split at h
        · simp at h
        · injection h with _ h2
          subst h2
          exact setVariableText_lens st _ _
      | declaration decl =>
        simp only [handleRuleBodyItem] at h
        split at h
        · simp at h
        · injection h with _ h2
          subst h2
          exact ⟨rfl, rfl⟩
      | nestedRule nested =>
        simp only [handleRuleBodyItem] at h
        split at h
        · simp at h
        · next out st2 heq =>
          injection h with _ h2
          subst h2
          exact ihR _ _ _ _ _ heq
      | mixinDefinition df =>
        simp only [handleRuleBodyItem] at h
        injection h with _ h2
        subst h2
        exact setMixin_lens st _
      | mixinCall call =>
        simp only [handleRuleBodyItem] at h
        exact ihM _ _ _ _ _ _ _ h
      | atRule ar =>
        simp only [handleRuleBodyItem] at h
        split at h
        · simp at h
        · next ear st2 heq =>
          injection h with _ h2
          subst h2
          exact ihA _ _ _ _ _ heq
      | detachedCall call =>
        simp only [handleRuleBodyItem] at h
        exact ihD _ _ _ _ _ _ _ h
    -- evalBodyItems
    · intro st items sel d p r st' h
      cases items with
      | nil =>
        simp only [evalBodyItems] at h
        injection h with _ h2
        subst h2
        exact ⟨rfl, rfl⟩
      | cons item rest =>
        simp only [evalBodyItems] at h
        split at h
        · simp at h
        · next d2 p2 st2 heq =>
          exact hTrans _ _ _ (ihB _ _ _ _ _ _ _ h) (ihH _ _ _ _ _ _ _ heq)
    -- evalRuleset
    · intro st rule ps r st' h
      simp only [evalRuleset] at h
      split at h
      · simp at h
      · next decls pend st2 heq =>
        injection h with _ h2
        subst h2
        have hb := ihB _ _ _ _ _ _ _ heq
        have hpu := pushPair_lens st
        have hpo := popPair_lens st2
        refine ⟨?_, ?_⟩
        · rw [hpo.1, hb.1, hpu.1]
          omega
        · rw [hpo.2, hb.2, hpu.2]
          omega
    -- expandMixin
    · intro st call sel d p r st' h
      simp only [expandMixin] at h
      split at h
      · simp at h
      · next definition heqres =>
        split at h
        · simp at h
        · split at h
          · simp at h
          · next u st2 heq1 =>
            split at h
            · simp at h
            · next u2 st3 heq2 =>
              split at h
              · simp at h
              · next d2 p2 st4 heq3 =>
                injection h with _ h2
                subst h2
                have ha := bindMixinArgs_ok_lens _ _ _ _ heq1
                have hmid : st3.scopes.length = st2.scopes.length ∧
                    st3.mixinScopes.length = st2.mixinScopes.length := by
                  split at heq2
                  · exact bindMixinDefaults_ok_lens _ _ _ _ _ heq2
                  · injection heq2 with _ h3
                    subst h3
                    exact ⟨rfl, rfl⟩
                have hb := ihB _ _ _ _ _ _ _ heq3
                have hpu := pushPair_lens st
                have hpo := popPair_lens st4
                refine ⟨?_, ?_⟩
                · rw [hpo.1, hb.1, hmid.1, ha.1, hpu.1]
                  omega
                · rw [hpo.2, hb.2, hmid.2, ha.2, hpu.2]
                  omega
    -- invokeDetachedRuleset
    · intro st name sel d p r st' h
      simp only [invokeDetachedRuleset] at h
      split at h
      · simp at h
      · exact ihB _ _ _ _ _ _ _ h
    -- evalAtRule
    · intro st ar sel r st' h
      simp only [evalAtRule] at h
      split at h
      · simp at h
      · next sd ad ch st2 heq =>
        injection h with _ h2
        subst h2
        have hb := ihAI _ _ _ _ _ _ _ _ heq
        have hpu := pushPair_lens st
        have hpo := popPair_lens st2
        refine ⟨?_, ?_⟩
        · rw [hpo.1, hb.1, hpu.1]
          omega
        · rw [hpo.2, hb.2, hpu.2]
          omega
    -- evalAtRuleItems
    · intro st items sel sd ad ch r st' h
      cases items with
      | nil =>
        simp only [evalAtRuleItems] at h
        injection h with _ h2
        subst h2
        exact ⟨rfl, rfl⟩
      | cons item rest =>
        cases item with
        | variableDecl var =>
          simp only [evalAtRuleItems] at h
          split at h
          · simp at h
          · exact hTrans _ _ _ (ihAI _ _ _ _ _ _ _ _ h) (setVariableText_lens st _ _)
        | declaration decl =>
          simp only [evalAtRuleItems] at h
          split at h
          · simp at h
          · split at h
            · exact ihAI _ _ _ _ _ _ _ _ h
            · exact ihAI _ _ _ _ _ _ _ _ h
        | nestedRule nested =>
          simp only [evalAtRuleItems] at h
          split at h
          · simp at h
          · next out st2 heq =>
            exact hTrans _ _ _ (ihAI _ _ _ _ _ _ _ _ h) (ihR _ _ _ _ _ heq)
        | mixinDefinition df =>
          simp only [evalAtRuleItems] at h
          exact hTrans _ _ _ (ihAI _ _ _ _ _ _ _ _ h) (setMixin_lens st _)
        | mixinCall call =>
          simp only [evalAtRuleItems] at h
          split at h
          · split at h
            · simp at h
            · next d2 c2 st2 heq =>
              exact hTrans _ _ _ (ihAI _ _ _ _ _ _ _ _ h) (ihM _ _ _ _ _ _ _ heq)
          · split at h
            · simp at h
            · next d2 c2 st2 heq =>
              exact hTrans _ _ _ (ihAI _ _ _ _ _ _ _ _ h) (ihM _ _ _ _ _ _ _ heq)
        | atRule inner =>
          simp only [evalAtRuleItems] at h
          split at h
          · simp at h
          · next ear st2 heq =>
            exact hTrans _ _ _ (ihAI _ _ _ _ _ _ _ _ h) (ihA _ _ _ _ _ heq)
        | detachedCall call =>
          simp only [evalAtRuleItems] at h
          split at h
          · split at h
            · simp at h
            · next d2 c2 st2 heq =>
              exact hTrans _ _ _ (ihAI _ _ _ _ _ _ _ _ h) (ihD _ _ _ _ _ _ _ heq)
          · split at h
            · simp at h
            · next d2 c2 st2 heq =>
              exact hTrans _ _ _ (ihAI _ _ _ _ _ _ _ _ h) (ihD _ _ _ _ _ _ _ heq)

/-- C2 (amended): every SUCCESSFUL return of `eval_ruleset`,
`expand_mixin` and `eval_at_rule` leaves both scope stacks at their entry
depth (one variable scope and one mixin scope pushed on entry, both popped
on exit).  On error exits the Rust `?` returns skip the pops (see the
counterexample), the evaluator being abandoned on error. -/
theorem c2_scope_balance :
    (∀ fuel st rule ps r st',
      evalRuleset fuel st rule ps = (.ok r, st') →
      st'.scopes.length = st.scopes.length ∧
      st'.mixinScopes.length = st.mixinScopes.length) ∧
    (∀ fuel st call sel d p r st',
      expandMixin fuel st call sel d p = (.ok r, st') →
      st'.scopes.length = st.scopes.length ∧
      st'.mixinScopes.length = st.mixinScopes.length) ∧
    (∀ fuel st ar sel r st',
      evalAtRule fuel st ar sel = (.ok r, st') →
      st'.scopes.length = st.scopes.length ∧
      st'.mixinScopes.length = st.mixinScopes.length) :=
  ⟨fun fuel => (evalDepths fuel).2.2.1,
   fun fuel => (evalDepths fuel).2.2.2.1,
   fun fuel => (evalDepths fuel).2.2.2.2.2.1⟩

/-- Counterexample for C2 as frozen: evaluating `.x { color: @undef; }`
fails with an undefined-variable error, and after the error return of
`eval_ruleset` both stacks are one deeper than before the call — the
error exit did not pop. -/
theorem c2_counterexample :
    exceptIsOk (evalRuleset 5 initialState ruleBad []).1 = false ∧
    initialState.scopes.length = 1 ∧
    initialState.mixinScopes.length = 1 ∧
    (evalRuleset 5 initialState ruleBad []).2.scopes.length = 2 ∧
    (evalRuleset 5 initialState ruleBad []).2.mixinScopes.length = 2 := by
  refine ⟨?_, rfl, rfl, ?_, ?_⟩ <;> with_unfolding_all rfl

/-- Witness for C2 on the successfully evaluating `.a { color: red }`. -/
theorem c2_witness :
    (evalRuleset 5 initialState ruleGood []).2.scopes.length =
      initialState.scopes.length ∧
    (evalRuleset 5 initialState ruleGood []).2.mixinScopes.length =
      initialState.mixinScopes.length := by
  have heval : evalRuleset 5 initialState ruleGood [] =
      (.ok [EvaluatedNode.rule [".a"] [⟨"color", "red", false⟩]], initialState) := by
    with_unfolding_all rfl
  have h := c2_scope_balance.1 5 initialState ruleGood []
    [EvaluatedNode.rule [".a"] [⟨"color", "red", false⟩]] initialState heval
  rw [heval]
  exact h

/-! ## Non-empty-rule lemmas for claim C7 -/

theorem nodesRulesNonEmpty_append (a b : List EvaluatedNode) :
    nodesRulesNonEmpty (a ++ b) = (nodesRulesNonEmpty a && nodesRulesNonEmpty b) := by
  induction a with
  | nil => simp [nodesRulesNonEmpty]
  | cons x xs ih => simp [nodesRulesNonEmpty, ih, Bool.and_assoc]

/-- Master lemma for C7: every `Rule` node the evaluator emits (into the
pending-node accumulators, ruleset outputs and at-rule children) has a
non-empty declarations list. -/
theorem evalNonEmpty (fuel : Nat) :
    (∀ st item sel d p d2 p2 st',
      handleRuleBodyItem fuel st item sel d p = (.ok (d2, p2), st') →
      nodesRulesNonEmpty p = true → nodesRulesNonEmpty p2 = true) ∧
    (∀ st items sel d p d2 p2 st',
      evalBodyItems fuel st items sel d p = (.ok (d2, p2), st') →
      nodesRulesNonEmpty p = true → nodesRulesNonEmpty p2 = true) ∧
    (∀ st rule ps out st',
      evalRuleset fuel st rule ps = (.ok out, st') →
      nodesRulesNonEmpty out = true) ∧
    (∀ st call sel d p d2 p2 st',
      expandMixin fuel st call sel d p = (.ok (d2, p2), st') →
      nodesRulesNonEmpty p = true → nodesRulesNonEmpty p2 = true) ∧
    (∀ st name sel d p d2 p2 st',
      invokeDetachedRuleset fuel st name sel d p = (.ok (d2, p2), st') →
      nodesRulesNonEmpty p = true → nodesRulesNonEmpty p2 = true) ∧
    (∀ st ar sel ear st',
      evalAtRule fuel st ar sel = (.ok ear, st') →
      nodesRulesNonEmpty ear.children = true) ∧
    (∀ st items sel sd ad ch sd2 ad2 ch2 st',
      evalAtRuleItems fuel st items sel sd ad ch = (.ok (sd2, ad2, ch2), st') →
      nodesRulesNonEmpty ch = true → nodesRulesNonEmpty ch2 = true) := by
  induction fuel with
  | zero =>
    refine ⟨?_, ?_, ?_, ?_, ?_, ?_, ?_⟩ <;>
      · intros
        first
        | (rename_i h
           simp only [handleRuleBodyItem, evalBodyItems, evalRuleset, expandMixin,
            invokeDetachedRuleset, evalAtRule, evalAtRuleItems] at h
           exact absurd h (by simp))
        | (rename_i h hg
           simp only [handleRuleBodyItem, evalBodyItems, evalRuleset, expandMixin,
            invokeDetachedRuleset, evalAtRule, evalAtRuleItems] at h
           exact absurd h (by simp))
  | succ n ih =>
    obtain ⟨ihH, ihB, ihR, ihM, ihD, ihA, ihAI⟩ := ih
    refine ⟨?_, ?_, ?_, ?_, ?_, ?_, ?_⟩
    -- handleRuleBodyItem
    · intro st item sel d p d2 p2 st' h
      cases item with
      | variableDecl var =>
        simp only [handleRuleBodyItem] at h
        split at h
        · simp at h
        · injection h with h1 h2
          injection h1 with h1
          injection h1 with hd hp
          subst hp
          exact id
      | declaration decl =>
        simp only [handleRuleBodyItem] at h
        split at h
        · simp at h
        · injection h with h1 h2
          injection h1 with h1
          injection h1 with hd hp
          subst hp
          exact id
      | nestedRule nested =>
        simp only [handleRuleBodyItem] at h
        split at h
        · simp at h
        · next out st2 heq =>
          injection h with h1 h2
          injection h1 with h1
          injection h1 with hd hp
          subst hp
          intro hg
          rw [nodesRulesNonEmpty_append, hg, ihR _ _ _ _ _ heq]
          rfl
      | mixinDefinition df =>
        simp only [handleRuleBodyItem] at h
        injection h with h1 h2
        injection h1 with h1
        injection h1 with hd hp
        subst hp
        exact id
      | mixinCall call =>
        simp only [handleRuleBodyItem] at h
        exact ihM _ _ _ _ _ _ _ _ h
      | atRule ar =>
        simp only [handleRuleBodyItem] at h
        split at h
        · simp at h
        · next ear st2 heq =>
          injection h with h1 h2
          injection h1 with h1
          injection h1 with hd hp
          subst hp
          intro hg
          rw [nodesRulesNonEmpty_append, hg]
          show (true && nodesRulesNonEmpty [EvaluatedNode.atRule _ _ _ ear.children]) = true
          simp [nodesRulesNonEmpty, nodeRulesNonEmpty, ihA _ _ _ _ _ heq]
      | detachedCall call =>
        simp only [handleRuleBodyItem] at h
        exact ihD _ _ _ _ _ _ _ _ h
    -- evalBodyItems
    · intro st items sel d p d2 p2 st' h
      cases items with
      | nil =>
        simp only [evalBodyItems] at h
        injection h with h1 h2
        injection h1 with h1
        injection h1 with hd hp
        subst hp
        exact id
      | cons item rest =>
        simp only [evalBodyItems] at h
        split at h
        · simp at h
        · next dm pm st2 heq =>
          intro hg
          exact ihB _ _ _ _ _ _ _ _ h (ihH _ _ _ _ _ _ _ _ heq hg)
    -- evalRuleset
    · intro st rule ps out st' h
      simp only [evalRuleset] at h
      split at h
      · simp at h
      · next decls pend st2 heq =>
        injection h with h1 h2
        injection h1 with h1
        subst h1
        have hpend := ihB _ _ _ _ _ _ _ _ heq rfl
        rw [nodesRulesNonEmpty_append, hpend]
        split
        · rfl
        · next hni =>
          simp only [nodesRulesNonEmpty, nodeRulesNonEmpty, Bool.and_true]
          simp at hni
          simp [hni]
    -- expandMixin
    · intro st call sel d p d2 p2 st' h
      simp only [expandMixin] at h
      split at h
      · simp at h
      · split at h
        · simp at h
        · split at h
          · simp at h
          · split at h
            · simp at h
            · split at h
              · simp at h
              · next dm pm st4 heq3 =>
                injection h with h1 h2
                injection h1 with h1
                injection h1 with hd hp
                subst hp
                exact ihB _ _ _ _ _ _ _ _ heq3
    -- invokeDetachedRuleset
    · intro st name sel d p d2 p2 st' h
      simp only [invokeDetachedRuleset] at h
      split at h
      · simp at h
      · exact ihB _ _ _ _ _ _ _ _ h
    -- evalAtRule
    · intro st ar sel ear st' h
      simp only [evalAtRule] at h
      split at h
      · simp at h
      · next sd ad ch st2 heq =>
        injection h with h1 h2
        injection h1 with h1
        subst h1
        have hch := ihAI _ _ _ _ _ _ _ _ _ _ heq rfl
        show nodesRulesNonEmpty (_ ++ ch) = true
        rw [nodesRulesNonEmpty_append, hch]
        split
        · next hcond =>
          simp only [nodesRulesNonEmpty, nodeRulesNonEmpty, Bool.and_true]
          simp [hcond.2]
        · rfl
    -- evalAtRuleItems
    · intro st items sel sd ad ch sd2 ad2 ch2 st' h
      cases items with
      | nil =>
        simp only [evalAtRuleItems] at h
        injection h with h1 h2
        injection h1 with h1
        injection h1 with hs h1
        injection h1 with ha hc
        subst hc
        exact id
      | cons item rest =>
        cases item with
        | variableDecl var =>
          simp only [evalAtRuleItems] at h
          split at h
          · simp at h
          · exact ihAI _ _ _ _ _ _ _ _ _ _ h
        | declaration decl =>
          simp only [evalAtRuleItems] at h
          split at h
          · simp at h
          · split at h
            · exact ihAI _ _ _ _ _ _ _ _ _ _ h
            · exact ihAI _ _ _ _ _ _ _ _ _ _ h
        | nestedRule nested =>
          simp only [evalAtRuleItems] at h
          split at h
          · simp at h
          · next out st2 heq =>
            intro hg
            refine ihAI _ _ _ _ _ _ _ _ _ _ h ?_
            rw [nodesRulesNonEmpty_append, hg, ihR _ _ _ _ _ heq]
            rfl
        | mixinDefinition df =>
          simp only [evalAtRuleItems] at h
          exact ihAI _ _ _ _ _ _ _ _ _ _ h
        | mixinCall call =>
          simp only [evalAtRuleItems] at h
          split at h
          · split at h
            · simp at h
            · next dm cm st2 heq =>
              intro hg
              exact ihAI _ _ _ _ _ _ _ _ _ _ h (ihM _ _ _ _ _ _ _ _ heq hg)
          · split at h
            · simp at h
            · next dm cm st2 heq =>
              intro hg
              exact ihAI _ _ _ _ _ _ _ _ _ _ h (ihM _ _ _ _ _ _ _ _ heq hg)
        | atRule inner =>
          simp only [evalAtRuleItems] at h
          split at h
          · simp at h
          · next ear st2 heq =>
            intro hg
            refine ihAI _ _ _ _ _ _ _ _ _ _ h ?_
            rw [nodesRulesNonEmpty_append, hg]
            simp [nodesRulesNonEmpty, nodeRulesNonEmpty, ihA _ _ _ _ _ heq]
        | detachedCall call =>
          simp only [evalAtRuleItems] at h
          split at h
          · split at h
            · simp at h
            · next dm cm st2 heq =>
              intro hg
              exact ihAI _ _ _ _ _ _ _ _ _ _ h (ihD _ _ _ _ _ _ _ _ heq hg)
          · split at h
            · simp at h
            · next dm cm st2 heq =>
              intro hg
              exact ihAI _ _ _ _ _ _ _ _ _ _ h (ihD _ _ _ _ _ _ _ _ heq hg)

/-- The statement loop preserves the non-empty-rule invariant of the node
accumulator. -/
theorem evaluateStatements_nonEmpty :
    ∀ (stmts : List Statement) (fuel : Nat) (st : EvalState) imports nodes res st',
      evaluateStatements fuel st stmts imports nodes = (.ok res, st') →
      nodesRulesNonEmpty nodes = true → nodesRulesNonEmpty res.2 = true := by
  intro stmts
  induction stmts with
  | nil =>
    intro fuel st imports nodes res st' h hg
    simp only [evaluateStatements] at h
    injection h with h1 h2
    injection h1 with h1
    subst h1
    exact hg
  | cons stmt rest ih =>
    intro fuel st imports nodes res st' h hg
    cases stmt with
    | importStmt imp =>
      simp only [evaluateStatements] at h
      exact ih _ _ _ _ _ _ h hg
    | variableDecl var =>
      simp only [evaluateStatements] at h
      split at h
      · simp at h
      · exact ih _ _ _ _ _ _ h hg
    | ruleSet rule =>
      simp only [evaluateStatements] at h
      split at h
      · simp at h
      · next produced st2 heq =>
        refine ih _ _ _ _ _ _ h ?_
        rw [nodesRulesNonEmpty_append, hg, (evalNonEmpty fuel).2.2.1 _ _ _ _ _ heq]
        rfl
    | atRule ar =>
      simp only [evaluateStatements] at h
      split at h
      · simp at h
      · next ear st2 heq =>
        refine ih _ _ _ _ _ _ h ?_
        rw [nodesRulesNonEmpty_append, hg]
        simp [nodesRulesNonEmpty, nodeRulesNonEmpty,
          (evalNonEmpty fuel).2.2.2.2.2.1 _ _ _ _ _ heq]
    | mixinDefinition df =>
      simp only [evaluateStatements] at h
      exact ih _ _ _ _ _ _ h hg
    | mixinCall call =>
      simp only [evaluateStatements] at h
      split at h
      · simp at h
      · next decls produced st2 heq =>
        split at h
        · simp at h
        · refine ih _ _ _ _ _ _ h ?_
          rw [nodesRulesNonEmpty_append, hg,
            (evalNonEmpty fuel).2.2.2.1 _ _ _ _ _ _ _ _ heq rfl]
          rfl

/-- C7: after a successful evaluation every `Rule` node in the output —
among the top-level nodes and recursively among at-rule children — has a
non-empty declarations list, and the serializer renders nothing for a rule
with zero declarations in either pretty or minified mode. -/
theorem c7_no_empty_rules :
    (∀ fuel st sheet ev st',
      evaluate fuel st sheet = (.ok ev, st') →
      nodesRulesNonEmpty ev.nodes = true) ∧
    (∀ level selectors output,
      renderRulePretty level selectors [] output = output) ∧
    (∀ selectors output,
      renderRuleMinified selectors [] output = output) := by
  refine ⟨?_, ?_, ?_⟩
  · intro fuel st sheet ev st' h
    unfold evaluate at h
    split at h
    · simp at h
    · next imports nodes st2 heq =>
      injection h with h1 h2
      injection h1 with h1
      subst h1
      exact evaluateStatements_nonEmpty _ _ _ _ _ _ _ heq rfl
  · intro level selectors output
    simp [renderRulePretty]
  · intro selectors output
    simp [renderRuleMinified]

/-- Witness for C7 on `.a { .b { color: #fff } }` — a ruleset whose only
body item is a nested rule: the enclosing rule is elided, the nested one
survives with its declaration. -/
theorem c7_witness :
    nodesRulesNonEmpty (EvaluatedStylesheet.mk []
      [EvaluatedNode.rule [".a .b"] [⟨"color", "#fff", false⟩]]).nodes = true :=
  c7_no_empty_rules.1 9 initialState sheetNest
    ⟨[], [EvaluatedNode.rule [".a .b"] [⟨"color", "#fff", false⟩]]⟩ initialState
    (by with_unfolding_all rfl)

/-! ## Import-passthrough lemmas for claim C4 -/

/-- The statement loop accumulates exactly the raw texts of all import
statements (CSS or not) into the `imports` output, in order. -/
theorem evaluateStatements_imports :
    ∀ (stmts : List Statement) (fuel : Nat) (st : EvalState) imports nodes res st',
      evaluateStatements fuel st stmts imports nodes = (.ok res, st') →
      res.1 = imports ++ importRaws stmts := by
  intro stmts
  induction stmts with
  | nil =>
    intro fuel st imports nodes res st' h
    simp only [evaluateStatements] at h
    injection h with h1 h2
    injection h1 with h1
    subst h1
    simp [importRaws]
  | cons stmt rest ih =>
    intro fuel st imports nodes res st' h
    cases stmt with
    | importStmt imp =>
      simp only [evaluateStatements] at h
      rw [ih _ _ _ _ _ _ h]
      simp [importRaws]
    | variableDecl var =>
      simp only [evaluateStatements] at h
      split at h
      · simp at h
      · rw [ih _ _ _ _ _ _ h]
        simp [importRaws]
    | ruleSet rule =>
      simp only [evaluateStatements] at h
      split at h
      · simp at h
      · rw [ih _ _ _ _ _ _ h]
        simp [importRaws]
    | atRule ar =>
      simp only [evaluateStatements] at h
      split at h
      · simp at h
      · rw [ih _ _ _ _ _ _ h]
        simp [importRaws]
    | mixinDefinition df =>
      simp only [evaluateStatements] at h
      rw [ih _ _ _ _ _ _ h]
      simp [importRaws]
    | mixinCall call =>
      simp only [evaluateStatements] at h
      split at h
      · simp at h
      · split at h
        · simp at h
        · rw [ih _ _ _ _ _ _ h]
          simp [importRaws]

/-- C4: with `current_dir = None` and empty `include_paths`, `compile`
never consults the import expander (so no filesystem access and no
import-resolution or cyclic-import error can arise from it), and the
evaluated stylesheet carries the raw text of every `@import` statement —
non-CSS `.less` imports included — for the serializer to emit as
`@import` lines instead of inlining them. -/
theorem c4_no_import_expansion (parse : String → Except LessError Stylesheet)
    (exp1 exp2 : Stylesheet → Except LessError Stylesheet)
    (fuel : Nat) (source : String) (minify : Bool) :
    compile parse exp1 fuel source ⟨minify, none, []⟩ =
      compile parse exp2 fuel source ⟨minify, none, []⟩ ∧
    (∀ ast, parse source = .ok ast →
      (compile parse exp1 fuel source ⟨minify, none, []⟩ =
        match evaluate fuel initialState ast with
        | (.error e, _) => .error e
        | (.ok ev, _) => .ok (toCss minify ev)) ∧
      (∀ ev st', evaluate fuel initialState ast = (.ok ev, st') →
        ev.imports = importRaws ast.statements)) := by
  constructor
  · unfold compile
    simp
  · intro ast hp
    constructor
    · unfold compile
      rw [hp]
      simp
    · intro ev st' he
      unfold evaluate at he
      split at he
      · simp at he
      · next imports nodes st2 heq =>
        injection he with h1 h2
        injection h1 with h1
        subst h1
        simpa using evaluateStatements_imports _ _ _ _ _ _ _ heq

/-- Witness for C4: a stylesheet with a non-CSS `.less` import compiles
identically under two different expanders, and the raw import line is
carried through. -/
theorem c4_witness :
    compile (fun _ => .ok sheetImp) (fun s => .ok s) 9 "x" ⟨false, none, []⟩ =
      compile (fun _ => .ok sheetImp)
        (fun _ => .error (.eval "不可达")) 9 "x" ⟨false, none, []⟩ ∧
    (EvaluatedStylesheet.mk ["@import \"a.less\";"]
      [EvaluatedNode.rule [".a"] [⟨"color", "red", false⟩]]).imports =
        importRaws sheetImp.statements := by
  have h := c4_no_import_expansion (fun _ => .ok sheetImp) (fun s => .ok s)
    (fun _ => .error (.eval "不可达")) 9 "x" false
  refine ⟨h.1, ?_⟩
  exact (h.2 sheetImp rfl).2
    ⟨["@import \"a.less\";"], [EvaluatedNode.rule [".a"] [⟨"color", "red", false⟩]]⟩
    initialState (by with_unfolding_all rfl)

end LessOxide
